import Mathlib

/-!
# BMFS directory and allocation engine

A shallow embedding of `src/libbmfs.c` (BareMetal File System utility).

Conventions of the embedding.

* A byte is a `Nat`; an `unsigned long long` is a `Nat` below `2 ^ 64`, and every
  arithmetic step that can wrap in C is reduced modulo `2 ^ 64` explicitly.
* `struct BMFSEntry` is the 64-byte record of `libbmfs.h`: a 32-byte `FileName`
  followed by four 64-bit fields.  `FileName` is kept as the raw list of bytes of the
  field, so the tag byte `FileName[0]` and the stale bytes behind the terminator are
  visible.  Names are read as C strings: the bytes before the first NUL.  A name
  field without a NUL among its 32 bytes (where `strcmp` would read on into the next
  field) and a file name longer than 31 bytes (where `strcpy` would write past the
  field) are outside the embedding.
* `struct BMFSDir` is the array of 64 entries; the loops of the source that run
  `tint` from 0 to 63 are recursions over the first 64 elements of the list.
* A file name argument (`const char *`) is the list of its bytes.
* The global `disk` is a value of type `Disk`: the directory region (decoded) and the
  bytes of the image.  `bmfs_readdir` and `bmfs_savedir` ignore the results of
  `fread`/`fwrite` and always return 0, so loading and saving never fail in the model
  either.  `bmfs_write` saves the directory after the data, so the `dir` component is
  exact even when a data transfer touches the directory region; only the `data` bytes
  at offsets 4096..8191 are not meaningful.  The global `disksize` (MiB) is a parameter.
* `qsort` is the C library's; it is modelled by a stable insertion sort driven by the
  sign of the comparator.
* Of `bmfs_initialize` only the validation of the size string is embedded
  (`bmfs_initialize_size`); a string is the list of its ASCII codes.
-/

namespace BMFS

/-! ## Machine arithmetic -/

/-- Unsigned 64-bit subtraction (wraps around). -/
def sub64 (a b : Nat) : Nat := (a % 2 ^ 64 + (2 ^ 64 - b % 2 ^ 64)) % 2 ^ 64

/-- Unsigned 64-bit addition (wraps around). -/
def add64 (a b : Nat) : Nat := (a + b) % 2 ^ 64

/-- Unsigned 64-bit multiplication (wraps around). -/
def mul64 (a b : Nat) : Nat := (a * b) % 2 ^ 64

/-- Conversion of an unsigned 64-bit value to `int`: the low 32 bits, two's complement. -/
def toInt32 (x : Nat) : Int :=
  if x % 2 ^ 32 < 2 ^ 31 then ((x % 2 ^ 32 : Nat) : Int) else ((x % 2 ^ 32 : Nat) : Int) - 2 ^ 32

/-- Block size is 2MiB. -/
def blockSize : Nat := 2 * 1024 * 1024

/-- Largest `int`. -/
def INT_MAX : Nat := 2 ^ 31 - 1

/-- errno value "no such file or directory". -/
def ENOENT : Int := 2

/-- errno value "file exists". -/
def EEXIST : Int := 17

/-- errno value "no space left on device". -/
def ENOSPC : Int := 28

/-! ## Data model -/

/-- Directory record, `struct BMFSEntry`. -/
structure BMFSEntry where
  FileName : List Nat
  StartingBlock : Nat
  ReservedBlocks : Nat
  FileSize : Nat
  Unused : Nat
deriving DecidableEq

/-- Directory, `struct BMFSDir`: the 64 entries. -/
structure BMFSDir where
  Entries : List BMFSEntry
deriving DecidableEq

/-- The control byte `FileName[0]` of an entry. -/
def tag (e : BMFSEntry) : Nat := e.FileName.headD 0

/-- An all-zero entry. -/
def zeroEntry : BMFSEntry := ⟨List.replicate 32 0, 0, 0, 0, 0⟩

/-- The directory after `bmfs_dir_zero` / `bmfs_format`: 4096 zero bytes. -/
def bmfs_dir_zero : BMFSDir := ⟨List.replicate 64 zeroEntry⟩

/-! ## C strings -/

/-- The content of a C string: the bytes before the first NUL. -/
def cstr (s : List Nat) : List Nat := s.takeWhile (fun b => b != 0)

/-- C library `strcmp`: the difference of the first pair of bytes that differ, 0 when the
strings agree up to their terminators. -/
def strcmp : List Nat → List Nat → Int
  | [], [] => 0
  | [], b :: _ => -(b : Int)
  | a :: _, [] => (a : Int)
  | a :: as, b :: bs => if a = b then (if a = 0 then 0 else strcmp as bs) else (a : Int) - (b : Int)

/-- C library `strcpy` into a buffer holding `dst`: the string and its terminator
overwrite the front of the buffer, the bytes behind them stay. -/
def strcpy (dst src : List Nat) : List Nat :=
  cstr src ++ 0 :: dst.drop ((cstr src).length + 1)

/-! ## Directory store -/

/-- The loop of `bmfs_find` over the entries from slot `tint` on. -/
def findLoop (filename : List Nat) : List BMFSEntry → Nat → Option Nat
  | [], _ => none
  | e :: es, tint =>
    if tag e = 0 then none
    else if tag e = 1 then findLoop filename es (tint + 1)
    else if strcmp e.FileName filename ≠ 0 then findLoop filename es (tint + 1)
    else some tint

/-- Function `bmfs_find`: the slot of the entry it returns a pointer to, `none` for NULL. -/
def bmfs_find (dir : BMFSDir) (filename : List Nat) : Option Nat :=
  findLoop filename (dir.Entries.take 64) 0

/-- Function `bmfs_findfile` on the loaded directory: `none` is the return value 0; `some`
is the return value 1 with the entry copied to `*fileentry` and the value stored in
`*entrynumber`, the pointer difference (an element count) divided by the entry size. -/
def bmfs_findfile (dir : BMFSDir) (filename : List Nat) : Option (BMFSEntry × Nat) :=
  match bmfs_find dir filename with
  | none => none
  | some i => some (dir.Entries.getD i zeroEntry, i / 64)

/-- The assignment `entry->FileName[0] = 1` of `bmfs_delete`. -/
def markDeleted (e : BMFSEntry) : BMFSEntry := { e with FileName := e.FileName.set 0 1 }

/-- Function `bmfs_delete`: the directory on disk afterwards. -/
def bmfs_delete (dir : BMFSDir) (filename : List Nat) : BMFSDir :=
  match bmfs_find dir filename with
  | none => dir
  | some i =>
    ⟨dir.Entries.modify markDeleted i⟩

/-! ## Block allocator -/

/-- Helper for `qsort`: sorts by the `StartingBlock` field, empty records go to the end. -/
def StartingBlockCmp (ea eb : BMFSEntry) : Int :=
  if tag ea = 1 then 1
  else if tag eb = 1 then -1
  else toInt32 (sub64 ea.StartingBlock eb.StartingBlock)

/-- Insertion of one element into a sorted list, in front of the first element it does not
compare greater than. -/
def qsortInsert {α : Type} (cmp : α → α → Int) (x : α) : List α → List α
  | [] => [x]
  | y :: ys => if cmp x y ≤ 0 then x :: y :: ys else y :: qsortInsert cmp x ys

/-- C library `qsort`, as a stable insertion sort. -/
def qsort {α : Type} (cmp : α → α → Int) : List α → List α
  | [] => []
  | x :: xs => qsortInsert cmp x (qsort cmp xs)

/-- The first loop of `bmfs_create` ("Calculate number of files") from slot `tint` on:
the final `(num_used_entries, first_free_entry)`, where `none` is the value -1. -/
def countLoop : List BMFSEntry → Nat → Option Nat → Nat × Option Nat
  | [], _, first_free_entry => (0, first_free_entry)
  | e :: es, tint, first_free_entry =>
    if tag e = 0 then
      (tint, if first_free_entry = none then some tint else first_free_entry)
    else if tag e = 1 then
      countLoop es (tint + 1) (if first_free_entry = none then some tint else first_free_entry)
    else countLoop es (tint + 1) first_free_entry

/-- The gap scan of `bmfs_create` over the sorted used entries still to visit, with the
current `prev_file_end`: the final `new_file_start` (0 when nothing fits).  The empty
list is the iteration `tint == num_used_entries`. -/
def gapScan (num_blocks blocks_requested : Nat) : List BMFSEntry → Nat → Nat
  | [], prev_file_end =>
    if sub64 (sub64 num_blocks 1) prev_file_end ≥ blocks_requested then prev_file_end else 0
  | e :: es, prev_file_end =>
    let this_file_start := if tag e = 1 then sub64 num_blocks 1 else e.StartingBlock
    if sub64 this_file_start prev_file_end ≥ blocks_requested then prev_file_end
    else gapScan num_blocks blocks_requested es (add64 e.StartingBlock e.ReservedBlocks)

/-- The record `bmfs_create` writes over the entry of the chosen slot ("Add file record to
Directory"): three fields are assigned, the name is copied in, `Unused` stays. -/
def newRecord (filename : List Nat) (new_file_start blocks_requested : Nat) (e : BMFSEntry) :
    BMFSEntry :=
  { e with
    StartingBlock := new_file_start
    ReservedBlocks := blocks_requested
    FileSize := 0
    FileName := strcpy e.FileName filename }

/-- The assignment `FileName[0] = 0x00` of `bmfs_create`. -/
def markEnd (e : BMFSEntry) : BMFSEntry := { e with FileName := e.FileName.set 0 0 }

/-- The part of `bmfs_create` behind the `-EEXIST` check: directory scan, sort, gap scan
and the new record. -/
def allocate (num_blocks blocks_requested : Nat) (dir : BMFSDir) (filename : List Nat) :
    Int × BMFSDir :=
  match countLoop (dir.Entries.take 64) 0 none with
  | (_, none) => (-ENOSPC, dir)
  | (num_used_entries, some first_free_entry) =>
    let sorted := qsort StartingBlockCmp (dir.Entries.take num_used_entries)
      ++ dir.Entries.drop num_used_entries
    let new_file_start := gapScan num_blocks blocks_requested (sorted.take num_used_entries) 1
    if new_file_start = 0 then (-ENOSPC, dir)
    else
      let written :=
        sorted.modify (newRecord filename new_file_start blocks_requested) first_free_entry
      (0, ⟨if first_free_entry = num_used_entries ∧ num_used_entries + 1 < 64 then
            written.modify markEnd (num_used_entries + 1)
          else written⟩)

/-- Function `bmfs_create`: the return value and the directory on disk afterwards. -/
def bmfs_create (disksize : Nat) (dir : BMFSDir) (filename : List Nat) (maxsize : Nat) :
    Int × BMFSDir :=
  let maxsize := if maxsize % 2 ≠ 0 then add64 maxsize 1 else maxsize
  match bmfs_findfile dir filename with
  | some _ => (-EEXIST, dir)
  | none => allocate (disksize / 2) (maxsize / 2) dir filename

/-! ## Data transfer engine -/

/-- The disk image behind the global `disk`: the directory region at offset 4096, kept
decoded, the bytes of the image by absolute offset, and the length of the image file.
The `data` component stands for the bytes outside the directory region. -/
structure Disk where
  dir : BMFSDir
  data : Nat → Nat
  size : Nat

/-- C library `fseek(disk, offset, SEEK_SET)` after `bmfs_readdir` left the position at 0:
the position afterwards.  The offset is converted to `long`; a negative one is refused
and the position stays where it was. -/
def fseek (offset : Nat) : Nat := if offset < 2 ^ 63 then offset else 0

/-- C library `fwrite(buf, 1, len, disk)` at position `pos` (no I/O fault): the image
afterwards and the number of bytes written. -/
def fwrite (disk : Disk) (pos : Nat) (buf : List Nat) (len : Nat) : Disk × Nat :=
  ({ disk with
      data := fun p => if pos ≤ p ∧ p < pos + len then buf.getD (p - pos) 0 else disk.data p
      size := if len = 0 then disk.size else max disk.size (pos + len) }, len)

/-- C library `fread(buf, 1, len, disk)` at position `pos`: the bytes stored into `buf`;
their number is the return value.  A length of `2 ^ 63` or more is larger than any
object a buffer can be: the read is refused (`EFAULT`), nothing is transferred and the
return value is 0.  Below that the buffer is taken to hold `len` bytes, and reading
stops at the end of the image. -/
def fread (disk : Disk) (pos : Nat) (len : Nat) : List Nat :=
  if 2 ^ 63 ≤ len then []
  else (List.range (min len (disk.size - pos))).map (fun k => disk.data (pos + k))

/-- Function `bmfs_read`: the return value and the bytes stored into `buf`. -/
def bmfs_read (disk : Disk) (filename : List Nat) (len : Nat) (off : Nat) : Nat × List Nat :=
  match bmfs_findfile disk.dir filename with
  | none => (1, [104])
  | some (tempentry, _) =>
    let off := if off > tempentry.FileSize then tempentry.FileSize else off
    let len := if add64 off len > tempentry.FileSize then sub64 tempentry.FileSize off else len
    let pos := fseek (add64 (mul64 tempentry.StartingBlock blockSize) off)
    let bytes := fread disk pos len
    (bytes.length, bytes)

/-- The update `entry->FileSize += write_count` of `bmfs_write`. -/
def grow (write_count : Nat) (e : BMFSEntry) : BMFSEntry :=
  { e with FileSize := add64 e.FileSize write_count }

/-- Function `bmfs_write`: the return value and the disk image afterwards.  The offset is
an `off_t`, a signed 64-bit value. -/
def bmfs_write (disk : Disk) (filename : List Nat) (buf : List Nat) (len : Nat) (off : Int) :
    Int × Disk :=
  match bmfs_find disk.dir filename with
  | none => (-ENOENT, disk)
  | some i =>
    let entry := disk.dir.Entries.getD i zeroEntry
    let off : Nat := if off < 0 then 0 else off.toNat
    let off := if off > mul64 entry.ReservedBlocks blockSize then
      mul64 entry.ReservedBlocks blockSize else off
    let len := if add64 off len > mul64 entry.ReservedBlocks blockSize then
      sub64 (mul64 entry.ReservedBlocks blockSize) off else len
    let len := if len > INT_MAX then INT_MAX else len
    let pos := fseek (add64 (mul64 entry.StartingBlock blockSize) off)
    let (disk1, write_count) := fwrite disk pos buf len
    let dir1 : BMFSDir :=
      ⟨disk.dir.Entries.modify (grow write_count) i⟩
    ((write_count : Int), { disk1 with dir := dir1 })

/-! ## Sequences of operations -/

/-- A call of one of the three mutating operations. -/
inductive Op where
  | create (filename : List Nat) (maxsize : Nat)
  | delete (filename : List Nat)
  | write (filename : List Nat) (buf : List Nat) (len : Nat) (off : Int)

/-- The disk image after one call on a disk of `disksize` MiB. -/
def step (disksize : Nat) (disk : Disk) : Op → Disk
  | .create filename maxsize => { disk with dir := (bmfs_create disksize disk.dir filename maxsize).2 }
  | .delete filename => { disk with dir := bmfs_delete disk.dir filename }
  | .write filename buf len off => (bmfs_write disk filename buf len off).2

/-- The disk image after a sequence of calls. -/
def run (disksize : Nat) (disk : Disk) (ops : List Op) : Disk :=
  ops.foldl (step disksize) disk

/-- A freshly formatted image of `disksize` MiB: the directory is all zero. -/
def freshDisk (disksize : Nat) : Disk := ⟨bmfs_dir_zero, fun _ => 0, disksize * 1024 * 1024⟩

/-- A valid file name: not empty, at most 31 bytes, first byte neither 0x00 nor 0x01. -/
def ValidName (n : List Nat) : Prop :=
  n ≠ [] ∧ n.length ≤ 31 ∧ n.headD 0 ≠ 0 ∧ n.headD 0 ≠ 1

instance (n : List Nat) : Decidable (ValidName n) := by
  unfold ValidName; infer_instance

/-- The operation names a valid file. -/
def Op.Valid : Op → Prop
  | .create filename maxsize => ValidName filename ∧ maxsize < 2 ^ 64
  | .delete filename => ValidName filename
  | .write filename buf len off =>
    ValidName filename ∧ buf.length = len ∧ len < 2 ^ 64 ∧ -(2 ^ 63) ≤ off ∧ off < 2 ^ 63

/-- A live entry: the tag is neither 0x00 nor 0x01. -/
def Live (e : BMFSEntry) : Prop := tag e ≠ 0 ∧ tag e ≠ 1

instance (e : BMFSEntry) : Decidable (Live e) := by
  unfold Live; infer_instance

/-- The index of the first slot with tag 0x00 (the length of the list when there is none). -/
def sentinelIndex (l : List BMFSEntry) : Nat :=
  (l.takeWhile (fun e => tag e != 0)).length

/-- Slot `k` of the list matches `filename`: no slot up to and including it has tag 0x00,
its tag is not 0x01 and its name compares equal to `filename`. -/
def MatchL (filename : List Nat) (l : List BMFSEntry) (k : Nat) : Prop :=
  ∃ e, l[k]? = some e ∧ (∀ j ≤ k, ∀ ej, l[j]? = some ej → tag ej ≠ 0) ∧ tag e ≠ 1 ∧
    strcmp e.FileName filename = 0

/-- Slot `i` is one of the 64 slots of the directory and matches `filename`. -/
def IsMatch (dir : BMFSDir) (filename : List Nat) (i : Nat) : Prop :=
  i < 64 ∧ MatchL filename dir.Entries i

/-- An entry the scan of `bmfs_find` walks past. -/
def Passed (fn : List Nat) (x : BMFSEntry) : Prop :=
  tag x ≠ 0 ∧ ¬ (tag x ≠ 1 ∧ strcmp x.FileName fn = 0)

instance (op : Op) : Decidable op.Valid := by
  cases op <;> unfold Op.Valid <;> infer_instance

/-- Block `b` lies in the range `[StartingBlock, StartingBlock + ReservedBlocks)` of `e`. -/
def InRange (e : BMFSEntry) (b : Nat) : Prop :=
  e.StartingBlock ≤ b ∧ b < e.StartingBlock + e.ReservedBlocks

instance (e : BMFSEntry) (b : Nat) : Decidable (InRange e b) := by
  unfold InRange; infer_instance

/-- Non-overlap invariant: two distinct live entries in front of the first 0x00 slot share
no block. -/
def NonOverlap (dir : BMFSDir) : Prop :=
  ∀ i j e1 e2, i ≠ j →
    i < sentinelIndex (dir.Entries.take 64) → j < sentinelIndex (dir.Entries.take 64) →
    dir.Entries[i]? = some e1 → dir.Entries[j]? = some e2 → Live e1 → Live e2 →
    ∀ b, ¬ (InRange e1 b ∧ InRange e2 b)

/-- The file name "a". -/
def nameA : List Nat := [97]

/-- The file name "b". -/
def nameB : List Nat := [98]

/-- The file name "c". -/
def nameC : List Nat := [99]

/-- The file name "d". -/
def nameD : List Nat := [100]

/-- A live record with a one-byte name in a zeroed slot. -/
def record (c start reserved size : Nat) : BMFSEntry :=
  ⟨c :: List.replicate 31 0, start, reserved, size, 0⟩

/-- The directory holding the single file "a" in blocks [1,3). -/
def dirA : BMFSDir := ⟨record 97 1 2 0 :: List.replicate 63 zeroEntry⟩

/-- The directory holding "a" in blocks [1,3) and "b" in blocks [3,5). -/
def dirAB : BMFSDir := ⟨record 97 1 2 0 :: record 98 3 2 0 :: List.replicate 62 zeroEntry⟩

/-- The directory `dirAB` after "a" was deleted. -/
def dirTB : BMFSDir :=
  ⟨markDeleted (record 97 1 2 0) :: record 98 3 2 0 :: List.replicate 62 zeroEntry⟩

/-- Three files of two blocks, the first deleted, then a file of three blocks. -/
def overlapOps : List Op :=
  [.create nameA 4, .create nameB 4, .create nameC 4, .delete nameA, .create nameD 6]

/-- A 24 MiB image whose directory is `dirA`. -/
def diskA : Disk := ⟨dirA, fun _ => 0, 24 * 1024 * 1024⟩

/-- The offset `bmfs_write` uses for the transfer: the `off` of the source after its two
clamps ("make sure fuse isn't screwing anything up", "Make sure the offset doesn't
overflow"). -/
def writeOffset (entry : BMFSEntry) (off : Int) : Nat :=
  let off : Nat := if off < 0 then 0 else off.toNat
  if off > mul64 entry.ReservedBlocks blockSize then mul64 entry.ReservedBlocks blockSize else off

/-- The length `bmfs_write` passes to `fwrite`: the `len` of the source after its two
clamps (against the reservation and against `INT_MAX`). -/
def writeLength (entry : BMFSEntry) (off : Int) (len : Nat) : Nat :=
  let len := if add64 (writeOffset entry off) len > mul64 entry.ReservedBlocks blockSize then
    sub64 (mul64 entry.ReservedBlocks blockSize) (writeOffset entry off) else len
  if len > INT_MAX then INT_MAX else len

/-- The offset `bmfs_read` uses for the transfer: the `off` of the source after its clamp. -/
def readOffset (tempentry : BMFSEntry) (off : Nat) : Nat :=
  if off > tempentry.FileSize then tempentry.FileSize else off

/-- The length `bmfs_read` passes to `fread`: the `len` of the source after its clamp. -/
def readLength (tempentry : BMFSEntry) (off len : Nat) : Nat :=
  if add64 (readOffset tempentry off) len > tempentry.FileSize then
    sub64 tempentry.FileSize (readOffset tempentry off) else len

/-- The value of `first_free_entry` when the first loop of `bmfs_create` ends; `none` is
the value -1, with which the function leaves through "No free directory entries". -/
def first_free_entry (dir : BMFSDir) : Option Nat :=
  (countLoop (dir.Entries.take 64) 0 none).2

/-- The value of `num_used_entries` when the first loop of `bmfs_create` ends. -/
def num_used_entries (dir : BMFSDir) : Nat :=
  (countLoop (dir.Entries.take 64) 0 none).1

/-- Size invariant: a live entry in front of the first 0x00 slot holds no more bytes than
its reservation. -/
def SizeInv (dir : BMFSDir) : Prop :=
  ∀ i e, i < sentinelIndex (dir.Entries.take 64) → dir.Entries[i]? = some e → Live e →
    e.FileSize ≤ e.ReservedBlocks * blockSize

/-- Sentinel invariant: among the 64 slots, every slot in front of the first 0x00 slot has
a tag other than 0x00 and every slot at or behind it has tag 0x00. -/
def SentinelInv (dir : BMFSDir) : Prop :=
  ∀ i e, i < 64 → dir.Entries[i]? = some e →
    (i < sentinelIndex (dir.Entries.take 64) → tag e ≠ 0) ∧
    (sentinelIndex (dir.Entries.take 64) ≤ i → tag e = 0)

/-- The file name "0". -/
def name0 : List Nat := [48]

/-- The file name "1". -/
def name1 : List Nat := [49]

/-- The file name "z". -/
def nameZ : List Nat := [122]

/-- A 24 MiB image holding the file "a" in blocks [1,3) with 5 bytes written. -/
def diskA5 : Disk :=
  ⟨⟨record 97 1 2 5 :: List.replicate 63 zeroEntry⟩, fun _ => 0, 24 * 1024 * 1024⟩

/-- One file of one block, written once in full and once more at its first byte. -/
def growOps : List Op :=
  [.create nameA 2, .write nameA (List.replicate 2097152 0) 2097152 0, .write nameA [7] 1 0]

/-- Sixty-four files of one block, named by the bytes 48 ("0") to 111 ("o"). -/
def fillOps : List Op := (List.range 64).map (fun i => Op.create [i + 48] 2)

/-- The directory after `fillOps`: slot `i` holds the file named by byte `i + 48` in block
`i + 1`; no slot has tag 0x00. -/
def fullDir : BMFSDir := ⟨(List.range 64).map (fun i => record (i + 48) (i + 1) 1 0)⟩

/-- The directory after the first file, of `blocks` blocks, was created in the freshly
formatted directory. -/
def firstDir (filename : List Nat) (blocks : Nat) : BMFSDir :=
  ⟨newRecord filename 1 blocks zeroEntry :: List.replicate 63 zeroEntry⟩

/-- The `k` blocks from `p` on end in front of the last block `N - 1`, and every entry of
`l` ends at or in front of `p` or starts at or behind `p + k`. -/
def FitsAt (N : Nat) (l : List BMFSEntry) (k p : Nat) : Prop :=
  p + k ≤ N - 1 ∧
  ∀ e ∈ l, e.StartingBlock + e.ReservedBlocks ≤ p ∨ p + k ≤ e.StartingBlock

instance (N : Nat) (l : List BMFSEntry) (k p : Nat) : Decidable (FitsAt N l k p) := by
  unfold FitsAt; infer_instance

/-- The blocks `[p, p + k)` lie inside `[1, N - 1)` and none of them lies in the range of
an entry of `l`. -/
def FreeAt (N : Nat) (l : List BMFSEntry) (k p : Nat) : Prop :=
  1 ≤ p ∧ p + k ≤ N - 1 ∧ ∀ e ∈ l, ∀ b, p ≤ b → b < p + k → ¬ InRange e b

/-! ## Validation of the size string in `bmfs_initialize` -/

/-- Min disk size is 6MiB (three blocks of 2MiB each.) -/
def minimumDiskSize : Nat := 6 * 1024 * 1024

/-- The variables of `bmfs_initialize` that the validation of the size string works on. -/
structure SizeState where
  diskSize : Nat
  diskSizeFactor : Nat
  ret : Nat
deriving DecidableEq

/-- C library `isdigit` on an ASCII character. -/
def isdigit (ch : Nat) : Bool := decide (48 ≤ ch ∧ ch ≤ 57)

/-- C library `toupper` on an ASCII character. -/
def toupper (ch : Nat) : Nat := if 97 ≤ ch ∧ ch ≤ 122 then ch - 32 else ch

/-- One pass through the body of the first loop of `bmfs_initialize`, for the character
`ch = size[i]` with `next = size[i+1]`. -/
def sizeStep (i ch next : Nat) (st : SizeState) : SizeState :=
  if isdigit ch then
    let n := ch - 48
    if mul64 st.diskSize 10 > st.diskSize then
      { st with diskSize := add64 (mul64 st.diskSize 10) n }
    else if st.diskSize = 0 then
      { st with diskSize := add64 st.diskSize n }
    else
      { st with ret := 1 }
  else if i = 0 then
    { st with ret := 1 }
  else
    let st1 : SizeState :=
      if toupper ch = 75 then { st with diskSizeFactor := 1 }
      else if toupper ch = 77 then { st with diskSizeFactor := 2 }
      else if toupper ch = 71 then { st with diskSizeFactor := 3 }
      else if toupper ch = 84 then { st with diskSizeFactor := 4 }
      else if toupper ch = 80 then { st with diskSizeFactor := 5 }
      else { st with ret := 1 }
    if st1.ret = 0 ∧ next ≠ 0 then { st1 with ret := 1 } else st1

/-- The first loop of `bmfs_initialize` from index `i` on, over the characters still to
read (the string ends at its first NUL). -/
def sizeLoop : List Nat → Nat → SizeState → SizeState
  | [], _, st => st
  | ch :: rest, i, st =>
    if ch = 0 ∨ st.ret ≠ 0 then st
    else sizeLoop rest (i + 1) (sizeStep i ch (rest.headD 0) st)

/-- The loop `while (diskSizeFactor--)` of `bmfs_initialize`, with the number of passes
still to make. -/
def unitLoop : Nat → SizeState → SizeState
  | 0, st => st
  | f + 1, st =>
    unitLoop f
      (if mul64 st.diskSize 1024 > st.diskSize then
        { st with diskSize := mul64 st.diskSize 1024 }
      else { st with ret := 1 })

/-- The validation of the size string in `bmfs_initialize`: the values of `ret` and
`diskSize` behind "Make sure the disk size is large enough". -/
def bmfs_initialize_size (size : List Nat) : Nat × Nat :=
  let st := sizeLoop size 0 ⟨0, 0, 0⟩
  let st :=
    if st.ret = 0 ∧ st.diskSize > 0 ∧ st.diskSizeFactor > 0 then unitLoop st.diskSizeFactor st
    else st
  let ret := if st.ret = 0 then (if st.diskSize < minimumDiskSize then 1 else st.ret) else st.ret
  (ret, st.diskSize)

/-- The mathematical value of a string of ASCII decimal digits. -/
def decimalValue (digits : List Nat) : Nat :=
  digits.foldl (fun acc ch => acc * 10 + (ch - 48)) 0

/-- The size string "30000000000000000000" (3 followed by 19 zeros). -/
def sizeThreeE19 : List Nat := 51 :: List.replicate 19 48

/-- The size string "24576P". -/
def size24576P : List Nat := [50, 52, 53, 55, 54, 80]

/-! ## Further invariants and sample data -/

/-- The file name "e". -/
def nameE : List Nat := [101]

/-- Disk-bounds invariant on a disk of `disksize` MiB: a live entry in front of the first
0x00 slot starts at block 1 or later and ends at or in front of the last block
`disksize / 2 - 1`. -/
def DiskBounds (disksize : Nat) (dir : BMFSDir) : Prop :=
  ∀ i e, i < sentinelIndex (dir.Entries.take 64) → dir.Entries[i]? = some e → Live e →
    1 ≤ e.StartingBlock ∧ e.StartingBlock + e.ReservedBlocks ≤ disksize / 2 - 1

/-- A 24 MiB image whose file "a" has the largest 64-bit `FileSize`. -/
def diskMax : Disk :=
  ⟨⟨record 97 1 2 (2 ^ 64 - 1) :: List.replicate 63 zeroEntry⟩, fun _ => 0, 24 * 1024 * 1024⟩

/-- The calls of `overlapOps` followed by the creation of a file of 100 blocks. -/
def boundsOps : List Op := overlapOps ++ [.create nameE 200]

/-! ## Lemmas on the directory store -/

theorem matchL_cons_succ (fn : List Nat) (e : BMFSEntry) (es : List BMFSEntry) (k : Nat) :
    MatchL fn (e :: es) (k + 1) ↔ tag e ≠ 0 ∧ MatchL fn es k := by
  unfold MatchL
  constructor
  · rintro ⟨x, hx, hz, h1, hs⟩
    refine ⟨hz 0 (Nat.zero_le _) e (by simp), x, by simpa using hx, ?_, h1, hs⟩
    intro j hj ej hej
    exact hz (j + 1) (by omega) ej (by simpa using hej)
  · rintro ⟨h0, x, hx, hz, h1, hs⟩
    refine ⟨x, by simpa using hx, ?_, h1, hs⟩
    intro j hj ej hej
    cases j with
    | zero => simp at hej; subst hej; exact h0
    | succ j => exact hz j (by omega) ej (by simpa using hej)

theorem matchL_cons_zero (fn : List Nat) (e : BMFSEntry) (es : List BMFSEntry) :
    MatchL fn (e :: es) 0 ↔ tag e ≠ 0 ∧ tag e ≠ 1 ∧ strcmp e.FileName fn = 0 := by
  unfold MatchL
  constructor
  · rintro ⟨x, hx, hz, h1, hs⟩
    simp at hx; subst hx
    exact ⟨hz 0 (le_refl _) _ (by simp), h1, hs⟩
  · rintro ⟨h0, h1, hs⟩
    refine ⟨e, by simp, ?_, h1, hs⟩
    intro j hj ej hej
    have : j = 0 := by omega
    subst this; simp at hej; subst hej; exact h0

theorem findLoop_some (fn : List Nat) (l : List BMFSEntry) (t i : Nat)
    (h : findLoop fn l t = some i) :
    t ≤ i ∧ MatchL fn l (i - t) ∧ ∀ k < i - t, ¬ MatchL fn l k := by
  induction l generalizing t with
  | nil => simp [findLoop] at h
  | cons e es ih =>
    unfold findLoop at h
    by_cases h0 : tag e = 0
    · simp [h0] at h
    · by_cases h1 : tag e = 1
      · simp [h1] at h
        obtain ⟨hle, hm, hmin⟩ := ih (t + 1) h
        have hk : i - t = (i - (t + 1)) + 1 := by omega
        refine ⟨by omega, ?_, ?_⟩
        · rw [hk, matchL_cons_succ]; exact ⟨h0, hm⟩
        · intro k hk2
          cases k with
          | zero => rw [matchL_cons_zero]; tauto
          | succ k => rw [matchL_cons_succ]; intro hh; exact hmin k (by omega) hh.2
      · by_cases hs : strcmp e.FileName fn = 0
        · simp [h0, h1, hs] at h
          subst h
          refine ⟨le_refl _, ?_, ?_⟩
          · rw [Nat.sub_self, matchL_cons_zero]; exact ⟨h0, h1, hs⟩
          · intro k hk; omega
        · simp [h0, h1, hs] at h
          obtain ⟨hle, hm, hmin⟩ := ih (t + 1) h
          have hk : i - t = (i - (t + 1)) + 1 := by omega
          refine ⟨by omega, ?_, ?_⟩
          · rw [hk, matchL_cons_succ]; exact ⟨h0, hm⟩
          · intro k hk2
            cases k with
            | zero => rw [matchL_cons_zero]; tauto
            | succ k => rw [matchL_cons_succ]; intro hh; exact hmin k (by omega) hh.2

theorem findLoop_none (fn : List Nat) (l : List BMFSEntry) (t : Nat)
    (h : findLoop fn l t = none) : ∀ k, ¬ MatchL fn l k := by
  induction l generalizing t with
  | nil => intro k ⟨e, he, _⟩; simp at he
  | cons e es ih =>
    unfold findLoop at h
    intro k
    by_cases h0 : tag e = 0
    · cases k with
      | zero => rw [matchL_cons_zero]; tauto
      | succ k => rw [matchL_cons_succ]; tauto
    · by_cases h1 : tag e = 1
      · simp [h1] at h
        cases k with
        | zero => rw [matchL_cons_zero]; tauto
        | succ k => rw [matchL_cons_succ]; intro hh; exact ih (t + 1) h k hh.2
      · by_cases hs : strcmp e.FileName fn = 0
        · simp [h0, h1, hs] at h
        · simp [h0, h1, hs] at h
          cases k with
          | zero => rw [matchL_cons_zero]; tauto
          | succ k => rw [matchL_cons_succ]; intro hh; exact ih (t + 1) h k hh.2

theorem matchL_take (fn : List Nat) (l : List BMFSEntry) (k : Nat) :
    MatchL fn (l.take 64) k ↔ k < 64 ∧ MatchL fn l k := by
  unfold MatchL
  constructor
  · rintro ⟨e, he, hz, h1, hs⟩
    rw [List.getElem?_take] at he
    by_cases hk : k < 64
    · rw [if_pos hk] at he
      refine ⟨hk, e, he, ?_, h1, hs⟩
      intro j hj ej hej
      exact hz j hj ej (by rw [List.getElem?_take, if_pos (by omega)]; exact hej)
    · rw [if_neg hk] at he; cases he
  · rintro ⟨hk, e, he, hz, h1, hs⟩
    refine ⟨e, by rw [List.getElem?_take, if_pos hk]; exact he, ?_, h1, hs⟩
    intro j hj ej hej
    rw [List.getElem?_take, if_pos (by omega)] at hej
    exact hz j hj ej hej

theorem bmfs_find_some (dir : BMFSDir) (fn : List Nat) (i : Nat)
    (h : bmfs_find dir fn = some i) :
    IsMatch dir fn i ∧ ∀ k < i, ¬ IsMatch dir fn k := by
  obtain ⟨_, hm, hmin⟩ := findLoop_some fn _ 0 i h
  simp only [Nat.sub_zero] at hm hmin
  refine ⟨(matchL_take fn _ i).1 hm, ?_⟩
  intro k hk hmk
  exact hmin k hk ((matchL_take fn _ k).2 hmk)

theorem bmfs_find_none (dir : BMFSDir) (fn : List Nat)
    (h : bmfs_find dir fn = none) (i : Nat) : ¬ IsMatch dir fn i := by
  intro hm
  exact findLoop_none fn _ 0 h i ((matchL_take fn _ i).2 hm)

theorem strcmp_head (a b : List Nat) (h : strcmp a b = 0) : a.headD 0 = b.headD 0 := by
  cases a with
  | nil =>
    cases b with
    | nil => rfl
    | cons y ys => simp [strcmp] at h; simp [h]
  | cons x xs =>
    cases b with
    | nil => simp [strcmp] at h; simp [h]
    | cons y ys =>
      simp only [strcmp] at h
      by_cases hxy : x = y
      · simp [hxy]
      · rw [if_neg hxy] at h
        exfalso; omega

theorem strcmp_eq_zero_iff (a b : List Nat) : strcmp a b = 0 ↔ cstr a = cstr b := by
  induction a generalizing b with
  | nil =>
    cases b with
    | nil => simp [strcmp]
    | cons y ys =>
      by_cases hy : y = 0
      · simp [strcmp, cstr, hy]
      · simp [strcmp, cstr, hy, List.takeWhile_cons]
  | cons x xs ih =>
    cases b with
    | nil =>
      by_cases hx : x = 0
      · simp [strcmp, cstr, hx]
      · simp [strcmp, cstr, hx, List.takeWhile_cons]
    | cons y ys =>
      simp only [strcmp]
      by_cases hxy : x = y
      · subst hxy
        by_cases hx : x = 0
        · simp [cstr, hx]
        · have := ih ys
          simp only [cstr] at this
          simp [cstr, hx, List.takeWhile_cons, this]
      · rw [if_neg hxy]
        have h1 : (x : Int) - (y : Int) ≠ 0 := by omega
        simp only [h1, false_iff]
        by_cases hx : x = 0
        · have hy : y ≠ 0 := fun h => hxy (by rw [hx, h])
          simp [cstr, hx, hy, List.takeWhile_cons]
        · by_cases hy : y = 0
          · simp [cstr, hx, hy, List.takeWhile_cons]
          · simp [cstr, hx, hy, List.takeWhile_cons, hxy]

theorem tag_set_one (e : BMFSEntry) (h : tag e ≠ 0) :
    tag (markDeleted e) = 1 := by
  unfold markDeleted tag at *
  cases hf : e.FileName with
  | nil => rw [hf] at h; simp at h
  | cons x xs => simp

/-! ## Lemmas on the block allocator -/

theorem qsortInsert_perm {α : Type} (cmp : α → α → Int) (x : α) (l : List α) :
    (qsortInsert cmp x l).Perm (x :: l) := by
  induction l with
  | nil => exact List.Perm.refl _
  | cons y ys ih =>
    unfold qsortInsert
    split
    · exact List.Perm.refl _
    · exact (List.Perm.cons y ih).trans (List.Perm.swap x y ys)

theorem qsort_perm {α : Type} (cmp : α → α → Int) (l : List α) : (qsort cmp l).Perm l := by
  induction l with
  | nil => exact List.Perm.refl _
  | cons x xs ih =>
    unfold qsort
    exact (qsortInsert_perm cmp x _).trans (List.Perm.cons x ih)

theorem qsort_length {α : Type} (cmp : α → α → Int) (l : List α) :
    (qsort cmp l).length = l.length := (qsort_perm cmp l).length_eq

theorem mem_qsort {α : Type} (cmp : α → α → Int) (l : List α) (x : α) :
    x ∈ qsort cmp l ↔ x ∈ l := (qsort_perm cmp l).mem_iff

theorem countLoop_spec (L : List BMFSEntry) (t : Nat) (ff0 : Option Nat) (n : Nat)
    (ff : Option Nat) (h : countLoop L t ff0 = (n, ff)) :
    (∀ x, ff0 = some x → ff = some x) ∧
    ((∃ pre z post, L = pre ++ z :: post ∧ (∀ x ∈ pre, tag x ≠ 0) ∧ tag z = 0 ∧
        n = t + pre.length ∧ (ff0 = none → ∃ f, ff = some f ∧ t ≤ f ∧ f ≤ n)) ∨
     ((∀ x ∈ L, tag x ≠ 0) ∧ n = 0 ∧
        (ff0 = none → ∀ f, ff = some f → t ≤ f ∧ f - t < L.length))) := by
  induction L generalizing t ff0 with
  | nil =>
    simp only [countLoop, Prod.mk.injEq] at h
    obtain ⟨hn, hff⟩ := h
    subst hn; subst hff
    refine ⟨fun x hx => hx, Or.inr ⟨by simp, rfl, ?_⟩⟩
    intro h0 f hf; rw [h0] at hf; cases hf
  | cons e es ih =>
    unfold countLoop at h
    by_cases h0 : tag e = 0
    · rw [if_pos h0] at h
      simp only [Prod.mk.injEq] at h
      obtain ⟨hn, hff⟩ := h
      subst hn
      refine ⟨?_, Or.inl ⟨[], e, es, rfl, by simp, h0, by simp, ?_⟩⟩
      · intro x hx; rw [← hff, hx]; simp
      · intro hnone; rw [← hff, hnone]; exact ⟨t, by simp, le_refl _, le_refl _⟩
    · rw [if_neg h0] at h
      by_cases h1 : tag e = 1
      · rw [if_pos h1] at h
        obtain ⟨hkeep, hrest⟩ := ih (t + 1) _ h
        refine ⟨?_, ?_⟩
        · intro x hx; exact hkeep x (by rw [hx]; simp)
        · rcases hrest with ⟨pre, z, post, hL, hpre, hz, hn, _⟩ | ⟨hall, hn, _⟩
          · refine Or.inl ⟨e :: pre, z, post, by rw [hL]; rfl, ?_, hz, by simp [hn]; omega, ?_⟩
            · intro x hx
              rcases List.mem_cons.1 hx with rfl | hx
              · exact h0
              · exact hpre x hx
            · intro hnone
              refine ⟨t, hkeep t (by rw [hnone]; simp), le_refl _, by omega⟩
          · refine Or.inr ⟨?_, hn, ?_⟩
            · intro x hx
              rcases List.mem_cons.1 hx with rfl | hx
              · exact h0
              · exact hall x hx
            · intro hnone f hf
              have := hkeep t (by rw [hnone]; simp)
              rw [this] at hf; cases hf
              simp
      · rw [if_neg h1] at h
        obtain ⟨hkeep, hrest⟩ := ih (t + 1) _ h
        refine ⟨hkeep, ?_⟩
        rcases hrest with ⟨pre, z, post, hL, hpre, hz, hn, hf⟩ | ⟨hall, hn, hf⟩
        · refine Or.inl ⟨e :: pre, z, post, by rw [hL]; rfl, ?_, hz, by simp [hn]; omega, ?_⟩
          · intro x hx
            rcases List.mem_cons.1 hx with rfl | hx
            · exact h0
            · exact hpre x hx
          · intro hnone
            obtain ⟨f, hf1, hf2, hf3⟩ := hf hnone
            exact ⟨f, hf1, by omega, hf3⟩
        · refine Or.inr ⟨?_, hn, ?_⟩
          · intro x hx
            rcases List.mem_cons.1 hx with rfl | hx
            · exact h0
            · exact hall x hx
          · intro hnone f hff
            obtain ⟨hf1, hf2⟩ := hf hnone f hff
            simp only [List.length_cons]
            omega

theorem cstr_strcpy (dst src : List Nat) : cstr (strcpy dst src) = cstr src := by
  unfold strcpy
  generalize dst.drop ((cstr src).length + 1) = r
  unfold cstr
  induction src with
  | nil => simp
  | cons x xs ih =>
    by_cases hx : x = 0
    · simp [hx]
    · simp [List.takeWhile_cons, hx, ih]

theorem strcmp_strcpy (dst src : List Nat) : strcmp (strcpy dst src) src = 0 :=
  (strcmp_eq_zero_iff _ _).2 (cstr_strcpy dst src)

theorem headD_strcpy (dst src : List Nat) (h : src.headD 0 ≠ 0) :
    (strcpy dst src).headD 0 = src.headD 0 := by
  cases src with
  | nil => simp at h
  | cons x xs =>
    simp at h
    simp [strcpy, cstr, List.takeWhile_cons, h]

theorem bmfs_find_of_least (dir : BMFSDir) (fn : List Nat) (i : Nat)
    (hm : IsMatch dir fn i) (hmin : ∀ k < i, ¬ IsMatch dir fn k) :
    bmfs_find dir fn = some i := by
  cases hf : bmfs_find dir fn with
  | none => exact absurd hm (bmfs_find_none dir fn hf i)
  | some j =>
    obtain ⟨hm', hmin'⟩ := bmfs_find_some dir fn j hf
    have h1 : ¬ j < i := fun hlt => hmin j hlt hm'
    have h2 : ¬ i < j := fun hlt => hmin' i hlt hm
    have : j = i := by omega
    rw [this]

theorem passed_of_find_none (dir : BMFSDir) (fn : List Nat) (h : bmfs_find dir fn = none)
    (i : Nat) (x : BMFSEntry) (hi : i < 64) (hx : dir.Entries[i]? = some x)
    (hz : ∀ j ≤ i, ∀ y, dir.Entries[j]? = some y → tag y ≠ 0) : Passed fn x := by
  refine ⟨hz i (le_refl _) x hx, ?_⟩
  rintro ⟨h1, hs⟩
  exact bmfs_find_none dir fn h i ⟨hi, x, hx, hz, h1, hs⟩

theorem bmfs_find_after_passed (dir : BMFSDir) (fn : List Nat) (f : Nat) (e : BMFSEntry)
    (hf : f < 64) (he : dir.Entries[f]? = some e)
    (h0 : tag e ≠ 0) (h1 : tag e ≠ 1) (hs : strcmp e.FileName fn = 0)
    (hpre : ∀ j < f, ∃ x, dir.Entries[j]? = some x ∧ Passed fn x) :
    bmfs_find dir fn = some f := by
  apply bmfs_find_of_least
  · refine ⟨hf, e, he, ?_, h1, hs⟩
    intro j hj y hy
    by_cases hjf : j = f
    · subst hjf; rw [he] at hy; cases hy; exact h0
    · obtain ⟨x, hx, hp⟩ := hpre j (by omega)
      rw [hx] at hy; cases hy; exact hp.1
  · rintro k hk ⟨_, y, hy, _, hy1, hys⟩
    obtain ⟨x, hx, hp⟩ := hpre k hk
    rw [hx] at hy; cases hy
    exact hp.2 ⟨hy1, hys⟩

theorem allocate_scan (dir : BMFSDir) (fn : List Nat) (n f : Nat)
    (hnone : bmfs_find dir fn = none)
    (hc : countLoop (dir.Entries.take 64) 0 none = (n, some f)) :
    f < 64 ∧ (f = n → n + 1 ≠ f) ∧
    (∃ e, (qsort StartingBlockCmp (dir.Entries.take n) ++ dir.Entries.drop n)[f]? = some e) ∧
    ∀ j < f, ∃ x,
      (qsort StartingBlockCmp (dir.Entries.take n) ++ dir.Entries.drop n)[j]? = some x ∧
      Passed fn x := by
  obtain ⟨_, hcase⟩ := countLoop_spec _ 0 none n (some f) hc
  have hsplit : dir.Entries = dir.Entries.take 64 ++ dir.Entries.drop 64 :=
    (List.take_append_drop 64 dir.Entries).symm
  have hlen64 : (dir.Entries.take 64).length ≤ 64 := List.length_take_le 64 _
  rcases hcase with ⟨pre, z, post, hL, hpre, hz, hn, hf⟩ | ⟨hall, hn, hf⟩
  · obtain ⟨f', hf', _, hfn⟩ := hf rfl
    cases hf'
    simp only [Nat.zero_add] at hn
    obtain ⟨rest, hE⟩ : ∃ rest, dir.Entries = pre ++ z :: rest :=
      ⟨post ++ dir.Entries.drop 64, by
        rw [← List.cons_append, ← List.append_assoc, ← hL]; exact hsplit⟩
    have hplen : pre.length < 64 := by
      have : (dir.Entries.take 64).length = pre.length + (post.length + 1) := by
        rw [hL]; simp
      omega
    have htake : dir.Entries.take n = pre := by
      rw [hE, hn]; simp
    have hdrop : dir.Entries.drop n = z :: rest := by
      rw [hE, hn]; simp
    have hmem : ∀ x ∈ pre, Passed fn x := by
      intro x hx
      obtain ⟨i, hi, hxi⟩ := List.getElem_of_mem hx
      have hxi' : dir.Entries[i]? = some x := by
        rw [hE, List.getElem?_append_left hi, List.getElem?_eq_getElem hi, hxi]
      refine passed_of_find_none dir fn hnone i x (by omega) hxi' ?_
      intro j hj y hy
      have hjl : j < pre.length := by omega
      rw [hE, List.getElem?_append_left hjl, List.getElem?_eq_getElem hjl] at hy
      cases hy
      exact hpre _ (List.getElem_mem _)
    rw [htake, hdrop]
    have hql : (qsort StartingBlockCmp pre).length = pre.length := qsort_length _ _
    refine ⟨by omega, by omega, ?_, ?_⟩
    · have : f < (qsort StartingBlockCmp pre ++ z :: rest).length := by
        simp [hql]; omega
      exact ⟨_, List.getElem?_eq_getElem this⟩
    · intro j hj
      have hjl : j < (qsort StartingBlockCmp pre).length := by omega
      refine ⟨(qsort StartingBlockCmp pre)[j], ?_, ?_⟩
      · rw [List.getElem?_append_left hjl, List.getElem?_eq_getElem hjl]
      · exact hmem _ ((mem_qsort _ _ _).1 (List.getElem_mem _))
  · obtain ⟨_, hflt⟩ := hf rfl f rfl
    simp only [Nat.sub_zero] at hflt
    subst hn
    have hf64 : f < 64 := by omega
    have hflen : f < dir.Entries.length := by
      have := List.length_take_le' 64 dir.Entries
      omega
    simp only [List.take_zero, List.drop_zero, qsort, List.nil_append]
    refine ⟨hf64, by omega, ⟨_, List.getElem?_eq_getElem hflen⟩, ?_⟩
    intro j hj
    have hjlen : j < dir.Entries.length := by omega
    refine ⟨dir.Entries[j], List.getElem?_eq_getElem hjlen, ?_⟩
    refine passed_of_find_none dir fn hnone j _ (by omega) (List.getElem?_eq_getElem hjlen) ?_
    intro k hk y hy
    apply hall
    have hk64 : k < 64 := by omega
    have : (dir.Entries.take 64)[k]? = some y := by
      rw [List.getElem?_take, if_pos hk64]; exact hy
    exact List.getElem?_mem this

theorem allocate_ok_find (nb br : Nat) (dir : BMFSDir) (fn : List Nat)
    (hh0 : fn.headD 0 ≠ 0) (hh1 : fn.headD 0 ≠ 1)
    (hnone : bmfs_find dir fn = none) (hok : (allocate nb br dir fn).1 = 0) :
    ∃ i e, bmfs_find (allocate nb br dir fn).2 fn = some i ∧
      (allocate nb br dir fn).2.Entries[i]? = some e ∧
      e.FileSize = 0 ∧ e.ReservedBlocks = br ∧ e.StartingBlock ≠ 0 := by
  unfold allocate at hok ⊢
  rcases hc : countLoop (dir.Entries.take 64) 0 none with ⟨n, ff⟩
  rw [hc] at hok
  cases ff with
  | none => simp [ENOSPC] at hok
  | some f =>
    simp only at hok ⊢
    split at hok
    · simp [ENOSPC] at hok
    · rename_i hne
      rw [if_neg hne]
      simp only
      obtain ⟨hf64, hfn, ⟨e, he⟩, hpre⟩ := allocate_scan dir fn n f hnone hc
      generalize hS : qsort StartingBlockCmp (dir.Entries.take n) ++ dir.Entries.drop n = S
        at he hpre hne ⊢
      generalize hg : gapScan nb br (S.take n) 1 = g at hne ⊢
      have hget : ∀ j ≤ f, (if f = n ∧ n + 1 < 64 then
            (S.modify (newRecord fn g br) f).modify markEnd (n + 1)
          else S.modify (newRecord fn g br) f)[j]? = (S.modify (newRecord fn g br) f)[j]? := by
        intro j hj
        split
        · rename_i hcond
          exact List.getElem?_modify_ne _ _ (by omega)
        · rfl
      refine ⟨f, newRecord fn g br e, ?_, ?_, rfl, rfl, hne⟩
      · apply bmfs_find_after_passed _ fn f (newRecord fn g br e) hf64
        · simp only
          rw [hget f (le_refl _), List.getElem?_modify_eq, he]; rfl
        · unfold tag newRecord; simp only; rw [headD_strcpy _ _ hh0]; exact hh0
        · unfold tag newRecord; simp only; rw [headD_strcpy _ _ hh0]; exact hh1
        · exact strcmp_strcpy _ _
        · intro j hj
          obtain ⟨x, hx, hp⟩ := hpre j hj
          refine ⟨x, ?_, hp⟩
          simp only
          rw [hget j (by omega), List.getElem?_modify_ne _ _ (by omega)]
          exact hx
      · rw [hget f (le_refl _), List.getElem?_modify_eq, he]; rfl

theorem bmfs_create_ok_find (disksize : Nat) (dir : BMFSDir) (fn : List Nat) (ms : Nat)
    (hname : ValidName fn) (hok : (bmfs_create disksize dir fn ms).1 = 0) :
    ∃ i e, bmfs_find (bmfs_create disksize dir fn ms).2 fn = some i ∧
      (bmfs_create disksize dir fn ms).2.Entries[i]? = some e ∧
      e.FileSize = 0 ∧
      e.ReservedBlocks = (if ms % 2 ≠ 0 then add64 ms 1 else ms) / 2 ∧
      e.StartingBlock ≠ 0 := by
  unfold bmfs_create bmfs_findfile at hok ⊢
  cases hf : bmfs_find dir fn with
  | some i => rw [hf] at hok; simp [EEXIST] at hok
  | none =>
    rw [hf] at hok
    simp only at hok ⊢
    exact allocate_ok_find _ _ dir fn hname.2.2.1 hname.2.2.2 hf hok

theorem isMatch_lt_of_tag_zero (dir : BMFSDir) (fn : List Nat) (i j : Nat) (e : BMFSEntry)
    (hm : IsMatch dir fn i) (he : dir.Entries[j]? = some e) (h0 : tag e = 0) : i < j := by
  by_contra hlt
  obtain ⟨_, _, _, hz, _, _⟩ := hm
  exact hz j (by omega) e he h0

/-! ## The allocator and the non-overlap invariant -/

/-- Claim C1 (fails on the code): on an 18 MiB disk (9 blocks) the valid calls create "a"
4 MiB, create "b" 4 MiB, create "c" 4 MiB, delete "a", create "d" 6 MiB lead from the
freshly formatted directory to one that breaks the non-overlap invariant: slot 0 holds "d"
in blocks [3,6) and slot 1 holds "c" in blocks [5,7), both live and in front of the
sentinel, and block 5 lies in both ranges. -/
theorem nonoverlap_broken_by_tombstone_scan :
    3 ≤ 18 / 2 ∧ (∀ op ∈ overlapOps, op.Valid) ∧
    (run 18 (freshDisk 18) overlapOps).dir.Entries[0]? = some (record 100 3 3 0) ∧
    (run 18 (freshDisk 18) overlapOps).dir.Entries[1]? = some (record 99 5 2 0) ∧
    ¬ NonOverlap (run 18 (freshDisk 18) overlapOps).dir := by
  refine ⟨by decide, by decide, by decide, by decide, ?_⟩
  intro h
  exact h 0 1 (record 100 3 3 0) (record 99 5 2 0) (by decide) (by decide) (by decide)
    (by decide) (by decide) (by decide) (by decide) 5 (by decide)

/-! ## Creating a file -/

/-- Claim C2: when `bmfs_find` locates `filename` in the directory, `bmfs_create` returns
`-EEXIST` for every size and every disk size, and the directory on disk is the one that
was loaded. -/
theorem bmfs_create_existing_name (disksize : Nat) (dir : BMFSDir) (filename : List Nat)
    (maxsize i : Nat) (h : bmfs_find dir filename = some i) :
    bmfs_create disksize dir filename maxsize = (-EEXIST, dir) := by
  simp [bmfs_create, bmfs_findfile, h]

/-- Witness of C2: "b" is found in slot 1 of `dirAB`, and creating it again with 7 MiB on a
24 MiB disk is refused with the directory unchanged. -/
theorem bmfs_create_existing_name_witness :
    bmfs_find dirAB nameB = some 1 ∧ bmfs_create 24 dirAB nameB 7 = (-EEXIST, dirAB) :=
  ⟨by decide, bmfs_create_existing_name 24 dirAB nameB 7 1 (by decide)⟩

/-- Claim C3 (fails on the code): on the freshly formatted directory of a 6 MiB disk,
`bmfs_create` of the valid new name "a" with the 64-bit size `2 ^ 64 - 1` returns 0, and
the entry then found for "a" has `ReservedBlocks = 0`, which is below
`ceil ((2 ^ 64 - 1) / 2) = 2 ^ 63`: the increment of the odd size wraps around to 0. -/
theorem bmfs_create_largest_size_reserves_nothing :
    ValidName nameA ∧ bmfs_find bmfs_dir_zero nameA = none ∧
    (bmfs_create 6 bmfs_dir_zero nameA (2 ^ 64 - 1)).1 = 0 ∧
    bmfs_find (bmfs_create 6 bmfs_dir_zero nameA (2 ^ 64 - 1)).2 nameA = some 0 ∧
    (bmfs_create 6 bmfs_dir_zero nameA (2 ^ 64 - 1)).2.Entries[0]? = some (record 97 1 0 0) ∧
    ¬ ((2 ^ 64 - 1 + 1) / 2 ≤ (record 97 1 0 0).ReservedBlocks) := by
  decide

/-- Counterexample to C4 as stated: on the freshly formatted directory of a 6 MiB disk,
`bmfs_create` of "a" with size 2 (MiB) succeeds and the entry found for "a" has
`ReservedBlocks = 1`, an odd number of blocks. -/
theorem bmfs_create_reserved_blocks_odd :
    ValidName nameA ∧ (bmfs_create 6 bmfs_dir_zero nameA 2).1 = 0 ∧
    bmfs_find (bmfs_create 6 bmfs_dir_zero nameA 2).2 nameA = some 0 ∧
    (bmfs_create 6 bmfs_dir_zero nameA 2).2.Entries[0]? = some (record 97 1 1 0) ∧
    (record 97 1 1 0).ReservedBlocks % 2 = 1 := by
  decide

/-- Claim C4, amended: for every directory, every valid name and every size below
`2 ^ 64 - 1`, after a successful `bmfs_create` the name is found, its entry has
`FileSize = 0`, and twice its `ReservedBlocks` is the size rounded up to the next even
number: the reserved capacity is an even number of MiB, `ReservedBlocks` itself is
`ceil (maxsize / 2)`. -/
theorem bmfs_create_reserved_capacity (disksize : Nat) (dir : BMFSDir) (filename : List Nat)
    (maxsize : Nat) (hname : ValidName filename) (hsize : maxsize + 1 < 2 ^ 64)
    (hok : (bmfs_create disksize dir filename maxsize).1 = 0) :
    ∃ i e, bmfs_find (bmfs_create disksize dir filename maxsize).2 filename = some i ∧
      (bmfs_create disksize dir filename maxsize).2.Entries[i]? = some e ∧
      e.FileSize = 0 ∧ 2 * e.ReservedBlocks = maxsize + maxsize % 2 := by
  obtain ⟨i, e, h1, h2, h3, h4, _⟩ := bmfs_create_ok_find disksize dir filename maxsize hname hok
  refine ⟨i, e, h1, h2, h3, ?_⟩
  rw [h4]
  unfold add64
  split
  · rw [Nat.mod_eq_of_lt hsize]; omega
  · omega

/-- Witness of the amended C4: creating "c" with 3 MiB in `dirAB` on a 24 MiB disk. -/
theorem bmfs_create_reserved_capacity_witness :
    ValidName nameC ∧ 3 + 1 < 2 ^ 64 ∧ (bmfs_create 24 dirAB nameC 3).1 = 0 ∧
    ∃ i e, bmfs_find (bmfs_create 24 dirAB nameC 3).2 nameC = some i ∧
      (bmfs_create 24 dirAB nameC 3).2.Entries[i]? = some e ∧
      e.FileSize = 0 ∧ 2 * e.ReservedBlocks = 3 + 3 % 2 :=
  ⟨by decide, by decide, by decide,
    bmfs_create_reserved_capacity 24 dirAB nameC 3 (by decide) (by decide) (by decide)⟩

/-- Claim C5 (fails on the code): `dirTB` is reached on a 24 MiB disk by create "a",
create "b", delete "a"; it has its sentinel in slot 2, "c" is a valid name not live in it
and "b" is found in slot 1 with blocks [3,5).  `bmfs_create` of "c" with 4 MiB succeeds,
and afterwards "b" is no longer found: the sort moved "b" to slot 0, the slot chosen
before the sort, and the new record was written over it. -/
theorem bmfs_create_overwrites_live_record :
    (run 24 (freshDisk 24) [.create nameA 4, .create nameB 4, .delete nameA]).dir = dirTB ∧
    sentinelIndex (dirTB.Entries.take 64) = 2 ∧
    ValidName nameC ∧ bmfs_find dirTB nameC = none ∧
    bmfs_find dirTB nameB = some 1 ∧ dirTB.Entries[1]? = some (record 98 3 2 0) ∧
    (bmfs_create 24 dirTB nameC 4).1 = 0 ∧
    bmfs_find (bmfs_create 24 dirTB nameC 4).2 nameB = none := by
  decide

/-- Claim C6: on a 24 MiB disk (12 blocks, usable blocks 1..10), starting from the freshly
formatted directory, create "a" 4 MiB succeeds and "a" gets blocks [1,3); create "b" 4 MiB
succeeds and "b" gets blocks [3,5); after delete "a", create "c" 4 MiB succeeds and "c"
gets blocks [1,3). -/
theorem scenario_reuses_deleted_range :
    (bmfs_create 24 bmfs_dir_zero nameA 4).1 = 0 ∧
    bmfs_find (bmfs_create 24 bmfs_dir_zero nameA 4).2 nameA = some 0 ∧
    (bmfs_create 24 bmfs_dir_zero nameA 4).2.Entries[0]? = some (record 97 1 2 0) ∧
    (bmfs_create 24 (bmfs_create 24 bmfs_dir_zero nameA 4).2 nameB 4).1 = 0 ∧
    (bmfs_create 24 (bmfs_create 24 bmfs_dir_zero nameA 4).2 nameB 4).2 = dirAB ∧
    bmfs_find dirAB nameB = some 1 ∧ dirAB.Entries[1]? = some (record 98 3 2 0) ∧
    bmfs_delete dirAB nameA = dirTB ∧
    (bmfs_create 24 dirTB nameC 4).1 = 0 ∧
    bmfs_find (bmfs_create 24 dirTB nameC 4).2 nameC = some 0 ∧
    (bmfs_create 24 dirTB nameC 4).2.Entries[0]? = some (record 99 1 2 0) := by
  decide

/-! ## Lookup and deletion -/

/-- Claim C7: `bmfs_find` returns the least slot `i < 64` such that no slot up to `i` has
tag 0x00, slot `i` has not tag 0x01 and its name compares equal to `filename`
(`IsMatch`); it returns NULL exactly when there is no such slot.  So a slot at or behind a
0x00 slot is never returned, a slot with tag 0x01 is never returned (and does not stop the
scan), and a name that is empty or begins with 0x01 is never found. -/
theorem bmfs_find_least_matching_slot (dir : BMFSDir) (filename : List Nat) :
    (∀ i, bmfs_find dir filename = some i ↔
      IsMatch dir filename i ∧ ∀ k < i, ¬ IsMatch dir filename k) ∧
    (bmfs_find dir filename = none ↔ ∀ i, ¬ IsMatch dir filename i) ∧
    (∀ i j e, j ≤ i → dir.Entries[j]? = some e → tag e = 0 →
      bmfs_find dir filename ≠ some i) ∧
    (∀ i e, dir.Entries[i]? = some e → tag e = 1 → bmfs_find dir filename ≠ some i) ∧
    (filename.headD 0 = 0 → bmfs_find dir filename = none) ∧
    (filename.headD 0 = 1 → bmfs_find dir filename = none) := by
  have key : ∀ i, IsMatch dir filename i → (∀ k < i, ¬ IsMatch dir filename k) →
      bmfs_find dir filename = some i := by
    intro i hm hmin
    cases hf : bmfs_find dir filename with
    | none => exact absurd hm (bmfs_find_none dir filename hf i)
    | some i' =>
      obtain ⟨hm', hmin'⟩ := bmfs_find_some dir filename i' hf
      have h1 : ¬ i' < i := fun hlt => hmin i' hlt hm'
      have h2 : ¬ i < i' := fun hlt => hmin' i hlt hm
      have : i' = i := by omega
      rw [this]
  have hhead : ∀ i, IsMatch dir filename i → filename.headD 0 ≠ 0 ∧ filename.headD 0 ≠ 1 := by
    rintro i ⟨_, e, he, hz, h1, hs⟩
    have := strcmp_head _ _ hs
    have h0 := hz i (le_refl _) e he
    unfold tag at h0 h1
    rw [this] at h0 h1
    exact ⟨h0, h1⟩
  refine ⟨fun i => ⟨bmfs_find_some dir filename i, fun h => key i h.1 h.2⟩, ?_, ?_, ?_, ?_, ?_⟩
  · constructor
    · exact fun h i => bmfs_find_none dir filename h i
    · intro h
      cases hf : bmfs_find dir filename with
      | none => rfl
      | some i => exact absurd (bmfs_find_some dir filename i hf).1 (h i)
  · intro i j e hji hej h0 hf
    obtain ⟨⟨_, _, _, hz, _, _⟩, _⟩ := bmfs_find_some dir filename i hf
    exact hz j hji e hej h0
  · intro i e hei h1 hf
    obtain ⟨⟨_, e', he', _, h1', _⟩, _⟩ := bmfs_find_some dir filename i hf
    rw [hei] at he'; cases he'
    exact h1' h1
  · intro h
    cases hf : bmfs_find dir filename with
    | none => rfl
    | some i => exact absurd h (hhead i (bmfs_find_some dir filename i hf).1).1
  · intro h
    cases hf : bmfs_find dir filename with
    | none => rfl
    | some i => exact absurd h (hhead i (bmfs_find_some dir filename i hf).1).2

/-- Witness of C7: in `dirTB` the deleted "a" in slot 0 is walked past and "b" is returned
from slot 1, which is a match. -/
theorem bmfs_find_least_matching_slot_witness :
    bmfs_find dirTB nameB = some 1 ∧ IsMatch dirTB nameB 1 :=
  ⟨by decide, (((bmfs_find_least_matching_slot dirTB nameB).1 1).1 (by decide)).1⟩

/-- Claim C8: when at most one slot of the directory matches `filename` (a live entry in
front of the sentinel with that name), `bmfs_find` does not find `filename` in the
directory saved by `bmfs_delete`. -/
theorem bmfs_delete_then_not_found (dir : BMFSDir) (filename : List Nat)
    (huniq : ∀ i j, IsMatch dir filename i → IsMatch dir filename j → i = j) :
    bmfs_find (bmfs_delete dir filename) filename = none := by
  unfold bmfs_delete
  cases hf : bmfs_find dir filename with
  | none => simpa using hf
  | some i =>
    simp only
    obtain ⟨hmi, _⟩ := bmfs_find_some dir filename i hf
    obtain ⟨hi64, ei, hei, hzi, h1i, hsi⟩ := id hmi
    cases hf' : bmfs_find ⟨dir.Entries.modify markDeleted i⟩ filename with
    | none => rfl
    | some k =>
      exfalso
      obtain ⟨⟨hk64, ek, hek, hzk, h1k, hsk⟩, _⟩ := bmfs_find_some _ filename k hf'
      simp only at hek hzk
      by_cases hik : i = k
      · subst hik
        rw [List.getElem?_modify_eq, hei] at hek
        simp at hek
        subst hek
        exact h1k (tag_set_one ei (hzi i (le_refl _) ei hei))
      · rw [List.getElem?_modify_ne _ _ hik] at hek
        have hmk : IsMatch dir filename k := by
          refine ⟨hk64, ek, hek, ?_, h1k, hsk⟩
          intro j hj ej hej
          by_cases hij : i = j
          · subst hij
            rw [hei] at hej; cases hej
            exact hzi i (le_refl _) ei hei
          · exact hzk j hj ej (by rw [List.getElem?_modify_ne _ _ hij]; exact hej)
        exact hik (huniq i k hmi hmk)

/-- Witness of C8: "a" is found in `dirA`, only slot 0 matches it, and after the deletion
it is not found. -/
theorem bmfs_delete_then_not_found_witness :
    (∀ i j, IsMatch dirA nameA i → IsMatch dirA nameA j → i = j) ∧
    bmfs_find dirA nameA = some 0 ∧
    bmfs_find (bmfs_delete dirA nameA) nameA = none :=
  have huniq : ∀ i j, IsMatch dirA nameA i → IsMatch dirA nameA j → i = j := by
    intro i j hi hj
    have h1 := isMatch_lt_of_tag_zero dirA nameA i 1 zeroEntry hi (by decide) (by decide)
    have h2 := isMatch_lt_of_tag_zero dirA nameA j 1 zeroEntry hj (by decide) (by decide)
    omega
  ⟨huniq, by decide, bmfs_delete_then_not_found dirA nameA huniq⟩

/-- Claim C9: when `bmfs_find` does not find `filename`, `bmfs_delete` leaves the directory
as it was.  When it finds it in slot `i`, the saved directory has the same number of
slots, every other slot is unchanged at its index, and slot `i` keeps the length of its
name field, every name byte but byte 0, `StartingBlock`, `ReservedBlocks`, `FileSize` and
`Unused`, while byte 0 of its name is 0x01. -/
theorem bmfs_delete_changes_one_tag (dir : BMFSDir) (filename : List Nat) :
    (bmfs_find dir filename = none → bmfs_delete dir filename = dir) ∧
    (∀ i, bmfs_find dir filename = some i →
      (bmfs_delete dir filename).Entries.length = dir.Entries.length ∧
      (∀ j, j ≠ i → (bmfs_delete dir filename).Entries[j]? = dir.Entries[j]?) ∧
      ∃ e e', dir.Entries[i]? = some e ∧ (bmfs_delete dir filename).Entries[i]? = some e' ∧
        e'.FileName.length = e.FileName.length ∧
        e'.FileName[0]? = some 1 ∧
        (∀ k, k ≠ 0 → e'.FileName[k]? = e.FileName[k]?) ∧
        e'.StartingBlock = e.StartingBlock ∧ e'.ReservedBlocks = e.ReservedBlocks ∧
        e'.FileSize = e.FileSize ∧ e'.Unused = e.Unused) := by
  constructor
  · intro h; simp [bmfs_delete, h]
  · intro i h
    obtain ⟨⟨_, e, he, hz, _, _⟩, _⟩ := bmfs_find_some dir filename i h
    have h0 := hz i (le_refl _) e he
    simp only [bmfs_delete, h]
    refine ⟨by simp, ?_, e, markDeleted e, he, ?_, by simp [markDeleted], ?_, ?_,
      rfl, rfl, rfl, rfl⟩
    · intro j hj
      exact List.getElem?_modify_ne _ _ (Ne.symm hj)
    · rw [List.getElem?_modify_eq, he]; rfl
    · unfold tag at h0
      unfold markDeleted
      cases hf : e.FileName with
      | nil => rw [hf] at h0; simp at h0
      | cons x xs => simp
    · intro k hk
      unfold markDeleted
      simp only
      rw [List.getElem?_set]
      simp [Ne.symm hk]

/-- Witness of C9: deleting the absent "c" leaves `dirAB` unchanged, and deleting "a",
found in slot 0, leaves every other slot unchanged. -/
theorem bmfs_delete_changes_one_tag_witness :
    (bmfs_find dirAB nameC = none ∧ bmfs_delete dirAB nameC = dirAB) ∧
    (bmfs_find dirAB nameA = some 0 ∧
      ∀ j, j ≠ 0 → (bmfs_delete dirAB nameA).Entries[j]? = dirAB.Entries[j]?) :=
  ⟨⟨by decide, (bmfs_delete_changes_one_tag dirAB nameC).1 (by decide)⟩,
    ⟨by decide, ((bmfs_delete_changes_one_tag dirAB nameA).2 0 (by decide)).2.1⟩⟩

/-! ## Writing and reading back -/

/-- Claim C10 (fails on the code): "a" is live in `diskA` with two reserved blocks and
`FileSize = 0`.  `bmfs_write` of the 5 bytes 1,2,3,4,5 at offset 10 (inside the
reservation, below `INT_MAX`) returns 5 and the bytes are on the disk at
`blockSize + 10`, but `FileSize` has become 5, so `bmfs_read` of 5 bytes at offset 10
clamps the offset to 5 and the length to 0 and returns no byte. -/
theorem bmfs_write_then_read_past_size :
    bmfs_find diskA.dir nameA = some 0 ∧
    diskA.dir.Entries[0]? = some (record 97 1 2 0) ∧
    10 + 5 ≤ (record 97 1 2 0).ReservedBlocks * blockSize ∧ 5 ≤ INT_MAX ∧
    (bmfs_write diskA nameA [1, 2, 3, 4, 5] 5 10).1 = 5 ∧
    (bmfs_write diskA nameA [1, 2, 3, 4, 5] 5 10).2.dir.Entries[0]? = some (record 97 1 2 5) ∧
    fread (bmfs_write diskA nameA [1, 2, 3, 4, 5] 5 10).2 (blockSize + 10) 5 = [1, 2, 3, 4, 5] ∧
    bmfs_read (bmfs_write diskA nameA [1, 2, 3, 4, 5] 5 10).2 nameA 5 10 = (0, []) := by
  decide

/-! ## The data transfer engine -/

theorem bmfs_write_found (disk : Disk) (fn buf : List Nat) (len : Nat) (off : Int) (i : Nat)
    (h : bmfs_find disk.dir fn = some i) :
    bmfs_write disk fn buf len off =
      (((writeLength (disk.dir.Entries.getD i zeroEntry) off len : Nat) : Int),
       { (fwrite disk (fseek (add64 (mul64 (disk.dir.Entries.getD i zeroEntry).StartingBlock
            blockSize) (writeOffset (disk.dir.Entries.getD i zeroEntry) off))) buf
            (writeLength (disk.dir.Entries.getD i zeroEntry) off len)).1 with
         dir := ⟨disk.dir.Entries.modify
           (grow (writeLength (disk.dir.Entries.getD i zeroEntry) off len)) i⟩ }) := by
  unfold bmfs_write
  rw [h]
  rfl

theorem bmfs_read_found (disk : Disk) (fn : List Nat) (len off : Nat) (e : BMFSEntry) (k : Nat)
    (h : bmfs_findfile disk.dir fn = some (e, k)) :
    bmfs_read disk fn len off =
      ((fread disk (fseek (add64 (mul64 e.StartingBlock blockSize) (readOffset e off)))
          (readLength e off len)).length,
        fread disk (fseek (add64 (mul64 e.StartingBlock blockSize) (readOffset e off)))
          (readLength e off len)) := by
  unfold bmfs_read
  rw [h]
  rfl

theorem fread_length (disk : Disk) (pos len : Nat) (h : len < 2 ^ 63) :
    (fread disk pos len).length = min len (disk.size - pos) := by
  unfold fread
  rw [if_neg (by omega)]
  simp

theorem fread_refused (disk : Disk) (pos len : Nat) (h : 2 ^ 63 ≤ len) :
    fread disk pos len = [] := by
  unfold fread
  rw [if_pos h]

/-- Claim C11 (fails on the code): "a" is live in `diskA` with `FileSize = 0`.  A write of
5 bytes at offset 10 transfers 5 bytes at the clamped offset 10 and leaves `FileSize = 5`,
not `max 0 (10 + 5) = 15`.  In `diskA5`, where "a" has `FileSize = 5`, writing the 5 bytes
at offset 0 over the range already written leaves `FileSize = 10`, not 5. -/
theorem bmfs_write_adds_count_to_size :
    bmfs_find diskA.dir nameA = some 0 ∧ diskA.dir.Entries[0]? = some (record 97 1 2 0) ∧
    writeOffset (record 97 1 2 0) 10 = 10 ∧
    (bmfs_write diskA nameA [1, 2, 3, 4, 5] 5 10).1 = 5 ∧
    (bmfs_write diskA nameA [1, 2, 3, 4, 5] 5 10).2.dir.Entries[0]? = some (record 97 1 2 5) ∧
    max (record 97 1 2 0).FileSize (writeOffset (record 97 1 2 0) 10 + 5) = 15 ∧
    bmfs_find diskA5.dir nameA = some 0 ∧ diskA5.dir.Entries[0]? = some (record 97 1 2 5) ∧
    (bmfs_write diskA5 nameA [1, 2, 3, 4, 5] 5 0).1 = 5 ∧
    (bmfs_write diskA5 nameA [1, 2, 3, 4, 5] 5 0).2.dir.Entries[0]? = some (record 97 1 2 10) ∧
    max (record 97 1 2 5).FileSize (writeOffset (record 97 1 2 5) 0 + 5) = 5 := by
  decide

/-- Claim C12 (fails on the code): on a 6 MiB disk the valid calls create "a" 2 MiB, write
2097152 bytes to "a" at offset 0, write 1 byte to "a" at offset 0 lead from the freshly
formatted directory to one where the live "a" in slot 0 has one reserved block and
`FileSize = 2097153`, one byte more than `1 * blockSize`. -/
theorem size_invariant_broken_by_rewrite :
    (∀ op ∈ growOps, op.Valid) ∧
    (run 6 (freshDisk 6) growOps).dir.Entries[0]? = some (record 97 1 1 2097153) ∧
    ¬ SizeInv (run 6 (freshDisk 6) growOps).dir := by
  refine ⟨?_, by decide, ?_⟩
  · intro op hop
    simp only [growOps, List.mem_cons, List.mem_singleton, List.mem_nil_iff, or_false] at hop
    rcases hop with rfl | rfl | rfl
    · decide
    · exact ⟨by decide, List.length_replicate _ _, by decide, by decide, by decide⟩
    · decide
  · intro h
    exact absurd (h 0 (record 97 1 1 2097153) (by decide) (by decide) (by decide)) (by decide)

/-- Claim C13 (fails on the code): "a" is live in `diskA` with two reserved blocks
(4194304 bytes).  For the offset 1 and the 64-bit length `2 ^ 64 - 1` the sum `off + len`
wraps around to 0, the length is not clamped against the reservation, only against
`INT_MAX`: `bmfs_write` returns 2147483647 and the transfer ends at byte 2147483648 of the
file, far behind the reservation. -/
theorem bmfs_write_length_wraps_past_reservation :
    bmfs_find diskA.dir nameA = some 0 ∧ diskA.dir.Entries[0]? = some (record 97 1 2 0) ∧
    writeOffset (record 97 1 2 0) 1 = 1 ∧
    writeLength (record 97 1 2 0) 1 (2 ^ 64 - 1) = 2147483647 ∧
    (bmfs_write diskA nameA [] (2 ^ 64 - 1) 1).1 = 2147483647 ∧
    (bmfs_write diskA nameA [] (2 ^ 64 - 1) 1).2.size = blockSize + 2147483648 ∧
    ¬ (writeOffset (record 97 1 2 0) 1 + writeLength (record 97 1 2 0) 1 (2 ^ 64 - 1) ≤
        (record 97 1 2 0).ReservedBlocks * blockSize) := by
  decide

/-- Claim C14 (fails on the code): "b" is not found in `diskA`, and `bmfs_read` of "b"
returns the count 1 and stores the byte 104 ("h") into the buffer. -/
theorem bmfs_read_missing_name_returns_one_byte :
    bmfs_find diskA.dir nameB = none ∧ bmfs_read diskA nameB 5 0 = (1, [104]) := by
  decide

/-- Claim C15 (fails on the code): "a" is live in `diskMax` with `StartingBlock = 1` and
`FileSize = 2 ^ 64 - 1`.  For the offset `2 ^ 64 - 1` and the length 5 the offset is not
clamped, the sum `off + len` wraps around to 4, so the length is not clamped either:
`off' + len'` is `2 ^ 64 + 4`, more than `FileSize`.  The position
`StartingBlock * blockSize + off'` wraps around as well, to 2097151, the last byte in
front of the file's first block, and `bmfs_read` returns the 5 bytes found there; all 5
bytes requested lie at or behind `FileSize`.  The same missed clamp with an ordinary
`FileSize`: in `diskA5` (`FileSize = 5`), for the offset 5 and the length `2 ^ 64 - 1`,
the length passed to `fread` is `2 ^ 64 - 1`. -/
theorem bmfs_read_length_wraps_past_size :
    bmfs_findfile diskMax.dir nameA = some (record 97 1 2 (2 ^ 64 - 1), 0) ∧
    readOffset (record 97 1 2 (2 ^ 64 - 1)) (2 ^ 64 - 1) = 2 ^ 64 - 1 ∧
    add64 (readOffset (record 97 1 2 (2 ^ 64 - 1)) (2 ^ 64 - 1)) 5 = 4 ∧
    readLength (record 97 1 2 (2 ^ 64 - 1)) (2 ^ 64 - 1) 5 = 5 ∧
    ¬ (readOffset (record 97 1 2 (2 ^ 64 - 1)) (2 ^ 64 - 1) +
        readLength (record 97 1 2 (2 ^ 64 - 1)) (2 ^ 64 - 1) 5 ≤
        (record 97 1 2 (2 ^ 64 - 1)).FileSize) ∧
    fseek (add64 (mul64 (record 97 1 2 (2 ^ 64 - 1)).StartingBlock blockSize)
      (readOffset (record 97 1 2 (2 ^ 64 - 1)) (2 ^ 64 - 1))) = 2097151 ∧
    ¬ ((record 97 1 2 (2 ^ 64 - 1)).StartingBlock * blockSize +
        readOffset (record 97 1 2 (2 ^ 64 - 1)) (2 ^ 64 - 1) = 2097151) ∧
    bmfs_read diskMax nameA 5 (2 ^ 64 - 1) = (5, [0, 0, 0, 0, 0]) ∧
    bmfs_findfile diskA5.dir nameA = some (record 97 1 2 5, 0) ∧
    readOffset (record 97 1 2 5) 5 = 5 ∧
    readLength (record 97 1 2 5) 5 (2 ^ 64 - 1) = 2 ^ 64 - 1 ∧
    ¬ (readOffset (record 97 1 2 5) 5 + readLength (record 97 1 2 5) 5 (2 ^ 64 - 1) ≤
        (record 97 1 2 5).FileSize) := by
  decide

/-! ## The directory scan of `bmfs_create` -/

set_option maxRecDepth 100000

/-- Claim C18 (fails on the code): the directory `bmfs_delete fullDir name1` is reached on a
132 MiB disk by creating 64 files and deleting "1"; none of its 64 slots has tag 0x00, so
the first 0x00 slot has "index" 64.  The first loop of `bmfs_create` ends with
`num_used_entries = 0` (and `first_free_entry = 1`): nothing is sorted or scanned, and
creating "z" with 2 MiB succeeds with `StartingBlock = 1`, the block of the live "0" in
slot 0. -/
theorem num_used_entries_zero_without_sentinel :
    (∀ op ∈ fillOps ++ [Op.delete name1], op.Valid) ∧
    (run 132 (freshDisk 132) (fillOps ++ [Op.delete name1])).dir = bmfs_delete fullDir name1 ∧
    (∀ e ∈ (bmfs_delete fullDir name1).Entries.take 64, tag e ≠ 0) ∧
    sentinelIndex ((bmfs_delete fullDir name1).Entries.take 64) = 64 ∧
    num_used_entries (bmfs_delete fullDir name1) = 0 ∧
    first_free_entry (bmfs_delete fullDir name1) = some 1 ∧
    (bmfs_create 132 (bmfs_delete fullDir name1) nameZ 2).1 = 0 ∧
    (bmfs_create 132 (bmfs_delete fullDir name1) nameZ 2).2.Entries[0]? =
      some (record 48 1 1 0) ∧
    (bmfs_create 132 (bmfs_delete fullDir name1) nameZ 2).2.Entries[1]? =
      some (record 122 1 1 0) := by
  decide

/-- Claim C20 (fails on the code): on a 132 MiB disk the valid calls that create 64 files,
delete "0" (slot 0) and create "z" lead from the freshly formatted directory to one whose
slot 1 has tag 0x00 while slot 2 still holds the live record of "2": the new record went
into slot 0, and because `first_free_entry = num_used_entries = 0` the tag of slot 1, a
live file, was set to 0x00. -/
theorem sentinel_written_over_live_slot :
    (∀ op ∈ fillOps ++ [Op.delete name0, Op.create nameZ 2], op.Valid) ∧
    sentinelIndex
      ((run 132 (freshDisk 132) (fillOps ++ [Op.delete name0, Op.create nameZ 2])).dir.Entries.take
        64) = 1 ∧
    (run 132 (freshDisk 132) (fillOps ++ [Op.delete name0, Op.create nameZ 2])).dir.Entries[2]? =
      some (record 50 3 1 0) ∧
    ¬ SentinelInv (run 132 (freshDisk 132) (fillOps ++ [Op.delete name0, Op.create nameZ 2])).dir := by
  refine ⟨by decide, by decide, by decide, ?_⟩
  intro h
  exact absurd ((h 2 (record 50 3 1 0) (by decide) (by decide)).2 (by decide)) (by decide)

/-! ## Lemmas on the directory scan, the sort and the gap scan -/

theorem countLoop_snd_none (L : List BMFSEntry) (t : Nat) (ff0 : Option Nat) :
    (countLoop L t ff0).2 = none ↔ ff0 = none ∧ ∀ e ∈ L, Live e := by
  induction L generalizing t ff0 with
  | nil => simp [countLoop]
  | cons e es ih =>
    unfold countLoop
    by_cases h0 : tag e = 0
    · rw [if_pos h0]
      simp only [List.mem_cons, forall_eq_or_imp, Live]
      constructor
      · intro h
        cases ff0 <;> simp at h
      · rintro ⟨_, ⟨h, _⟩, _⟩
        exact absurd h0 h
    · rw [if_neg h0]
      by_cases h1 : tag e = 1
      · rw [if_pos h1, ih]
        simp only [List.mem_cons, forall_eq_or_imp, Live]
        constructor
        · rintro ⟨h, _⟩
          cases ff0 <;> simp at h
        · rintro ⟨_, ⟨_, h⟩, _⟩
          exact absurd h1 h
      · rw [if_neg h1, ih]
        simp only [List.mem_cons, forall_eq_or_imp, Live]
        tauto

theorem bmfs_create_of_find_none (disksize : Nat) (dir : BMFSDir) (fn : List Nat) (ms : Nat)
    (h : bmfs_find dir fn = none) :
    bmfs_create disksize dir fn ms =
      allocate (disksize / 2) ((if ms % 2 ≠ 0 then add64 ms 1 else ms) / 2) dir fn := by
  unfold bmfs_create bmfs_findfile
  rw [h]

theorem allocate_no_free_entry (nb br : Nat) (dir : BMFSDir) (fn : List Nat)
    (h : first_free_entry dir = none) : allocate nb br dir fn = (-ENOSPC, dir) := by
  unfold first_free_entry at h
  unfold allocate
  rcases hc : countLoop (dir.Entries.take 64) 0 none with ⟨n, ff⟩
  rw [hc] at h
  simp only at h
  subst h
  rfl

theorem allocate_fail_gap (nb br : Nat) (dir : BMFSDir) (fn : List Nat) (f : Nat)
    (h : first_free_entry dir = some f) (hfail : (allocate nb br dir fn).1 ≠ 0) :
    allocate nb br dir fn = (-ENOSPC, dir) ∧
    gapScan nb br
      ((qsort StartingBlockCmp (dir.Entries.take (num_used_entries dir)) ++
        dir.Entries.drop (num_used_entries dir)).take (num_used_entries dir)) 1 = 0 := by
  unfold first_free_entry at h
  unfold num_used_entries
  unfold allocate at hfail ⊢
  rcases hc : countLoop (dir.Entries.take 64) 0 none with ⟨n, ff⟩
  rw [hc] at h hfail
  simp only at h hfail ⊢
  subst h
  simp only at hfail ⊢
  split at hfail
  · rename_i h0
    rw [if_pos h0]
    exact ⟨rfl, h0⟩
  · exact absurd rfl hfail

theorem sub64_of_le (a b : Nat) (hb : b ≤ a) (ha : a < 2 ^ 64) : sub64 a b = a - b := by
  unfold sub64
  have h1 : a % 2 ^ 64 = a := Nat.mod_eq_of_lt ha
  have h2 : b % 2 ^ 64 = b := Nat.mod_eq_of_lt (by omega)
  rw [h1, h2]
  have : a + (2 ^ 64 - b) = (a - b) + 2 ^ 64 := by omega
  rw [this, Nat.add_mod_right]
  exact Nat.mod_eq_of_lt (by omega)

theorem tag_newRecord (fn : List Nat) (s r : Nat) (e : BMFSEntry) (h : fn.headD 0 ≠ 0) :
    tag (newRecord fn s r e) = fn.headD 0 := by
  unfold tag newRecord
  exact headD_strcpy _ _ h

theorem bmfs_find_fresh (fn : List Nat) : bmfs_find bmfs_dir_zero fn = none := by
  have h : bmfs_dir_zero.Entries.take 64 = zeroEntry :: List.replicate 63 zeroEntry := by decide
  have ht : tag zeroEntry = 0 := by decide
  unfold bmfs_find
  rw [h]
  simp [findLoop, ht]

theorem allocate_fresh (nb k : Nat) (fn : List Nat) (hnb : nb < 2 ^ 64) (hN : 3 ≤ nb)
    (hk : k ≤ nb - 2) : allocate nb k bmfs_dir_zero fn = (0, firstDir fn k) := by
  have h : bmfs_dir_zero.Entries.take 64 = zeroEntry :: List.replicate 63 zeroEntry := by decide
  have hE : bmfs_dir_zero.Entries = zeroEntry :: zeroEntry :: List.replicate 62 zeroEntry := by
    decide
  have ht : tag zeroEntry = 0 := by decide
  have hm : markEnd zeroEntry = zeroEntry := by decide
  have hc : countLoop (bmfs_dir_zero.Entries.take 64) 0 none = (0, some 0) := by
    rw [h]; simp [countLoop, ht]
  have hs : sub64 (sub64 nb 1) 1 = nb - 2 := by
    rw [sub64_of_le nb 1 (by omega) hnb, sub64_of_le (nb - 1) 1 (by omega) (by omega)]
    omega
  unfold allocate
  rw [hc]
  simp only [List.take_zero, List.drop_zero, qsort, List.nil_append, gapScan, hs]
  rw [if_pos (by omega : nb - 2 ≥ k)]
  simp only [Nat.one_ne_zero, if_false]
  rw [hE]
  simp [firstDir, hm, List.modify]

theorem bmfs_find_firstDir (n1 n2 : List Nat) (k : Nat) (h0 : n1.headD 0 ≠ 0)
    (hne : strcmp n1 n2 ≠ 0) : bmfs_find (firstDir n1 k) n2 = none := by
  have h : (firstDir n1 k).Entries.take 64 =
      newRecord n1 1 k zeroEntry :: zeroEntry :: List.replicate 62 zeroEntry := by
    unfold firstDir; rfl
  have ht : tag zeroEntry = 0 := by decide
  have ht1 : tag (newRecord n1 1 k zeroEntry) = n1.headD 0 := tag_newRecord _ _ _ _ h0
  have hs : strcmp (newRecord n1 1 k zeroEntry).FileName n2 ≠ 0 := by
    intro hh
    apply hne
    rw [strcmp_eq_zero_iff] at hh ⊢
    rw [← hh]
    unfold newRecord
    exact (cstr_strcpy _ _).symm
  unfold bmfs_find
  rw [h]
  simp [findLoop, ht, ht1, h0, hs]

theorem allocate_firstDir_full (nb k1 k2 : Nat) (n1 n2 : List Nat) (hnb : nb < 2 ^ 64)
    (hN : 3 ≤ nb) (h0 : n1.headD 0 ≠ 0) (h1 : n1.headD 0 ≠ 1) (hk1 : k1 ≤ nb - 2)
    (hk2 : 1 ≤ k2) (hexc : k1 + k2 > nb - 2) :
    allocate nb k2 (firstDir n1 k1) n2 = (-ENOSPC, firstDir n1 k1) := by
  have h : (firstDir n1 k1).Entries.take 64 =
      newRecord n1 1 k1 zeroEntry :: zeroEntry :: List.replicate 62 zeroEntry := by
    unfold firstDir; rfl
  have hE : (firstDir n1 k1).Entries =
      newRecord n1 1 k1 zeroEntry :: zeroEntry :: List.replicate 62 zeroEntry := by
    unfold firstDir; rfl
  have ht : tag zeroEntry = 0 := by decide
  have ht1 : tag (newRecord n1 1 k1 zeroEntry) = n1.headD 0 := tag_newRecord _ _ _ _ h0
  have hc : countLoop ((firstDir n1 k1).Entries.take 64) 0 none = (1, some 1) := by
    rw [h, countLoop, if_neg (by rw [ht1]; exact h0), if_neg (by rw [ht1]; exact h1), countLoop,
      if_pos ht]
    rfl
  have hs1 : sub64 1 1 = 0 := by decide
  have ha : add64 1 k1 = 1 + k1 := by
    unfold add64; exact Nat.mod_eq_of_lt (by omega)
  have hs : sub64 (sub64 nb 1) (1 + k1) = nb - 2 - k1 := by
    rw [sub64_of_le nb 1 (by omega) hnb, sub64_of_le (nb - 1) (1 + k1) (by omega) (by omega)]
    omega
  have hg : gapScan nb k2 [newRecord n1 1 k1 zeroEntry] 1 = 0 := by
    simp only [gapScan, ht1, if_neg h1]
    have hS : (newRecord n1 1 k1 zeroEntry).StartingBlock = 1 := rfl
    have hR : (newRecord n1 1 k1 zeroEntry).ReservedBlocks = k1 := rfl
    rw [hS, hR, hs1, ha, hs]
    rw [if_neg (by omega), if_neg (by omega)]
  unfold allocate
  rw [hc]
  simp only
  rw [hE]
  simp only [List.take_succ_cons, List.take_zero, qsort, qsortInsert, List.drop_succ_cons,
    List.drop_zero, List.singleton_append, hg, if_true]

theorem startingBlockCmp_le_iff (a b : BMFSEntry) (ha : tag a ≠ 1) (hb : tag b ≠ 1)
    (hsa : a.StartingBlock < 2 ^ 31) (hsb : b.StartingBlock < 2 ^ 31) :
    StartingBlockCmp a b ≤ 0 ↔ a.StartingBlock ≤ b.StartingBlock := by
  unfold StartingBlockCmp
  rw [if_neg ha, if_neg hb]
  unfold toInt32 sub64
  by_cases hle : b.StartingBlock ≤ a.StartingBlock
  · have h1 : (a.StartingBlock % 2 ^ 64 + (2 ^ 64 - b.StartingBlock % 2 ^ 64)) % 2 ^ 64
        = a.StartingBlock - b.StartingBlock := by omega
    rw [h1]
    have h2 : (a.StartingBlock - b.StartingBlock) % 2 ^ 32 = a.StartingBlock - b.StartingBlock := by
      omega
    rw [h2, if_pos (by omega)]
    omega
  · have h1 : (a.StartingBlock % 2 ^ 64 + (2 ^ 64 - b.StartingBlock % 2 ^ 64)) % 2 ^ 64
        = 2 ^ 64 - (b.StartingBlock - a.StartingBlock) := by omega
    rw [h1]
    have h2 : (2 ^ 64 - (b.StartingBlock - a.StartingBlock)) % 2 ^ 32
        = 2 ^ 32 - (b.StartingBlock - a.StartingBlock) := by omega
    rw [h2, if_neg (by omega)]
    omega

theorem mem_qsortInsert {α : Type} (cmp : α → α → Int) (x y : α) (l : List α) :
    y ∈ qsortInsert cmp x l ↔ y = x ∨ y ∈ l := by
  rw [(qsortInsert_perm cmp x l).mem_iff, List.mem_cons]

theorem qsortInsert_sorted (x : BMFSEntry) (l : List BMFSEntry)
    (hx : tag x ≠ 1 ∧ x.StartingBlock < 2 ^ 31)
    (hl : ∀ e ∈ l, tag e ≠ 1 ∧ e.StartingBlock < 2 ^ 31)
    (hs : l.Pairwise (fun a b => a.StartingBlock ≤ b.StartingBlock)) :
    (qsortInsert StartingBlockCmp x l).Pairwise
      (fun a b => a.StartingBlock ≤ b.StartingBlock) := by
  induction l with
  | nil => simp [qsortInsert]
  | cons y ys ih =>
    have hy := hl y (List.mem_cons_self _ _)
    rw [List.pairwise_cons] at hs
    unfold qsortInsert
    split
    · rename_i hc
      rw [startingBlockCmp_le_iff x y hx.1 hy.1 hx.2 hy.2] at hc
      rw [List.pairwise_cons]
      refine ⟨?_, List.pairwise_cons.2 hs⟩
      intro b hb
      rcases List.mem_cons.1 hb with rfl | hb
      · exact hc
      · exact le_trans hc (hs.1 b hb)
    · rename_i hc
      rw [startingBlockCmp_le_iff x y hx.1 hy.1 hx.2 hy.2] at hc
      rw [List.pairwise_cons]
      refine ⟨?_, ih (fun e he => hl e (List.mem_cons_of_mem _ he)) hs.2⟩
      intro b hb
      rcases (mem_qsortInsert _ _ _ _).1 hb with rfl | hb
      · omega
      · exact hs.1 b hb

theorem qsort_sorted (l : List BMFSEntry)
    (hl : ∀ e ∈ l, tag e ≠ 1 ∧ e.StartingBlock < 2 ^ 31) :
    (qsort StartingBlockCmp l).Pairwise (fun a b => a.StartingBlock ≤ b.StartingBlock) := by
  induction l with
  | nil => simp [qsort]
  | cons x xs ih =>
    unfold qsort
    apply qsortInsert_sorted x _ (hl x (List.mem_cons_self _ _))
    · intro e he
      exact hl e (List.mem_cons_of_mem _ ((mem_qsort _ _ _).1 he))
    · exact ih (fun e he => hl e (List.mem_cons_of_mem _ he))

theorem gapScan_first_fit (N k : Nat) (hN : N < 2 ^ 31) (hk : 1 ≤ k) (L : List BMFSEntry)
    (prev : Nat) (hp1 : 1 ≤ prev) (hpN : prev ≤ N - 1)
    (hL : ∀ e ∈ L, tag e ≠ 1 ∧ prev ≤ e.StartingBlock ∧ 1 ≤ e.ReservedBlocks ∧
      e.StartingBlock + e.ReservedBlocks ≤ N - 1)
    (hs : L.Pairwise (fun a b => a.StartingBlock + a.ReservedBlocks ≤ b.StartingBlock)) :
    (gapScan N k L prev ≠ 0 →
      prev ≤ gapScan N k L prev ∧ FitsAt N L k (gapScan N k L prev) ∧
      ∀ p, prev ≤ p → FitsAt N L k p → gapScan N k L prev ≤ p) ∧
    (gapScan N k L prev = 0 → ∀ p, prev ≤ p → ¬ FitsAt N L k p) := by
  induction L generalizing prev with
  | nil =>
    have hN64 : N < 2 ^ 64 := by omega
    have hN64' : N - 1 < 2 ^ 64 := by omega
    have hN1 : 1 ≤ N := by omega
    have h1 : sub64 (sub64 N 1) prev = N - 1 - prev := by
      rw [sub64_of_le N 1 hN1 hN64, sub64_of_le (N - 1) prev hpN hN64']
    simp only [gapScan, h1]
    by_cases hfit : N - 1 - prev ≥ k
    · rw [if_pos hfit]
      refine ⟨fun _ => ⟨le_refl _, ⟨by omega, by simp⟩, fun p hp _ => hp⟩, fun h => by omega⟩
    · rw [if_neg hfit]
      refine ⟨fun h => absurd rfl h, ?_⟩
      rintro _ p hp ⟨hf, _⟩
      omega
  | cons e es ih =>
    obtain ⟨he1, hes, heR, heN⟩ := hL e (List.mem_cons_self _ _)
    rw [List.pairwise_cons] at hs
    have hS64 : e.StartingBlock < 2 ^ 64 := by omega
    have h1 : sub64 e.StartingBlock prev = e.StartingBlock - prev :=
      sub64_of_le _ _ hes hS64
    have h2 : add64 e.StartingBlock e.ReservedBlocks = e.StartingBlock + e.ReservedBlocks := by
      unfold add64; exact Nat.mod_eq_of_lt (by omega)
    simp only [gapScan, if_neg he1, h1, h2]
    by_cases hfit : e.StartingBlock - prev ≥ k
    · rw [if_pos hfit]
      refine ⟨fun _ => ⟨le_refl _, ⟨by omega, ?_⟩, fun p hp _ => hp⟩, fun h => by omega⟩
      intro x hx
      rcases List.mem_cons.1 hx with rfl | hx
      · right; omega
      · right
        have := hs.1 x hx
        omega
    · rw [if_neg hfit]
      have hrec := ih (e.StartingBlock + e.ReservedBlocks) (by omega) heN
        (fun x hx => by
          obtain ⟨a, _, c, d⟩ := hL x (List.mem_cons_of_mem _ hx)
          exact ⟨a, hs.1 x hx, c, d⟩) hs.2
      constructor
      · intro hne
        obtain ⟨hge, ⟨hfN, hfes⟩, hleast⟩ := hrec.1 hne
        refine ⟨by omega, ⟨hfN, ?_⟩, ?_⟩
        · intro x hx
          rcases List.mem_cons.1 hx with rfl | hx
          · left; exact hge
          · exact hfes x hx
        · intro p hp ⟨hpN', hpall⟩
          have hpe := hpall e (List.mem_cons_self _ _)
          have hp' : e.StartingBlock + e.ReservedBlocks ≤ p := by omega
          exact hleast p hp' ⟨hpN', fun x hx => hpall x (List.mem_cons_of_mem _ hx)⟩
      · intro h0 p hp ⟨hpN', hpall⟩
        have hpe := hpall e (List.mem_cons_self _ _)
        have hp' : e.StartingBlock + e.ReservedBlocks ≤ p := by omega
        exact hrec.2 h0 p hp' ⟨hpN', fun x hx => hpall x (List.mem_cons_of_mem _ hx)⟩

theorem fitsAt_iff_freeAt (N k p : Nat) (l : List BMFSEntry) (hk : 1 ≤ k)
    (hl : ∀ e ∈ l, 1 ≤ e.ReservedBlocks) :
    FreeAt N l k p ↔ 1 ≤ p ∧ FitsAt N l k p := by
  unfold FreeAt FitsAt InRange
  constructor
  · rintro ⟨h1, h2, h3⟩
    refine ⟨h1, h2, ?_⟩
    intro e he
    have hR := hl e he
    by_contra hcon
    have hb := h3 e he (max p e.StartingBlock) (le_max_left _ _) (by omega)
    apply hb
    constructor
    · exact le_max_right _ _
    · omega
  · rintro ⟨h1, h2, h3⟩
    refine ⟨h1, h2, ?_⟩
    intro e he b hb1 hb2 ⟨hb3, hb4⟩
    rcases h3 e he with h | h <;> omega

theorem fitsAt_perm (N k p : Nat) (l l' : List BMFSEntry) (h : ∀ e, e ∈ l ↔ e ∈ l') :
    FitsAt N l k p ↔ FitsAt N l' k p := by
  unfold FitsAt
  constructor
  · rintro ⟨h1, h2⟩; exact ⟨h1, fun e he => h2 e ((h e).2 he)⟩
  · rintro ⟨h1, h2⟩; exact ⟨h1, fun e he => h2 e ((h e).1 he)⟩

theorem countLoop_used (pre : List BMFSEntry) (z : BMFSEntry) (post : List BMFSEntry) (t : Nat)
    (hpre : ∀ e ∈ pre, Live e) (hz : tag z = 0) :
    countLoop (pre ++ z :: post) t none = (t + pre.length, some (t + pre.length)) := by
  induction pre generalizing t with
  | nil => simp [countLoop, hz]
  | cons e es ih =>
    obtain ⟨h0, h1⟩ := hpre e (List.mem_cons_self _ _)
    rw [List.cons_append, countLoop, if_neg h0, if_neg h1,
      ih (t + 1) (fun x hx => hpre x (List.mem_cons_of_mem _ hx))]
    simp only [List.length_cons]
    have : t + 1 + es.length = t + (es.length + 1) := by omega
    rw [this]

theorem allocate_by_gap (nb br : Nat) (dir : BMFSDir) (fn : List Nat) (f : Nat)
    (h : first_free_entry dir = some f) :
    (gapScan nb br
      ((qsort StartingBlockCmp (dir.Entries.take (num_used_entries dir)) ++
        dir.Entries.drop (num_used_entries dir)).take (num_used_entries dir)) 1 = 0 →
      allocate nb br dir fn = (-ENOSPC, dir)) ∧
    (gapScan nb br
      ((qsort StartingBlockCmp (dir.Entries.take (num_used_entries dir)) ++
        dir.Entries.drop (num_used_entries dir)).take (num_used_entries dir)) 1 ≠ 0 →
      (allocate nb br dir fn).1 = 0) := by
  unfold first_free_entry at h
  unfold num_used_entries
  unfold allocate
  rcases hc : countLoop (dir.Entries.take 64) 0 none with ⟨n, ff⟩
  rw [hc] at h
  simp only at h ⊢
  subst h
  simp only
  constructor
  · intro h0; rw [if_pos h0]
  · intro h0; rw [if_neg h0]

theorem allocate_ok_start (nb br : Nat) (dir : BMFSDir) (fn : List Nat)
    (hh0 : fn.headD 0 ≠ 0) (hh1 : fn.headD 0 ≠ 1)
    (hnone : bmfs_find dir fn = none) (hok : (allocate nb br dir fn).1 = 0) :
    ∃ i e, bmfs_find (allocate nb br dir fn).2 fn = some i ∧
      (allocate nb br dir fn).2.Entries[i]? = some e ∧
      e.StartingBlock = gapScan nb br
        ((qsort StartingBlockCmp (dir.Entries.take (num_used_entries dir)) ++
          dir.Entries.drop (num_used_entries dir)).take (num_used_entries dir)) 1 := by
  unfold num_used_entries
  unfold allocate at hok ⊢
  rcases hc : countLoop (dir.Entries.take 64) 0 none with ⟨n, ff⟩
  rw [hc] at hok
  cases ff with
  | none => simp [ENOSPC] at hok
  | some f =>
    simp only at hok ⊢
    split at hok
    · simp [ENOSPC] at hok
    · rename_i hne
      rw [if_neg hne]
      simp only
      obtain ⟨hf64, hfn, ⟨e, he⟩, hpre⟩ := allocate_scan dir fn n f hnone hc
      generalize hS : qsort StartingBlockCmp (dir.Entries.take n) ++ dir.Entries.drop n = S
        at he hpre hne ⊢
      generalize hg : gapScan nb br (S.take n) 1 = g at hne ⊢
      have hget : ∀ j ≤ f, (if f = n ∧ n + 1 < 64 then
            (S.modify (newRecord fn g br) f).modify markEnd (n + 1)
          else S.modify (newRecord fn g br) f)[j]? = (S.modify (newRecord fn g br) f)[j]? := by
        intro j hj
        split
        · rename_i hcond
          exact List.getElem?_modify_ne _ _ (by omega)
        · rfl
      refine ⟨f, newRecord fn g br e, ?_, ?_, rfl⟩
      · apply bmfs_find_after_passed _ fn f (newRecord fn g br e) hf64
        · simp only
          rw [hget f (le_refl _), List.getElem?_modify_eq, he]; rfl
        · unfold tag newRecord; simp only; rw [headD_strcpy _ _ hh0]; exact hh0
        · unfold tag newRecord; simp only; rw [headD_strcpy _ _ hh0]; exact hh1
        · exact strcmp_strcpy _ _
        · intro j hj
          obtain ⟨x, hx, hp⟩ := hpre j hj
          refine ⟨x, ?_, hp⟩
          simp only
          rw [hget j (by omega), List.getElem?_modify_ne _ _ (by omega)]
          exact hx
      · rw [hget f (le_refl _), List.getElem?_modify_eq, he]; rfl

theorem used_split (dir : BMFSDir) (pre post : List BMFSEntry) (z : BMFSEntry)
    (hsplit : dir.Entries.take 64 = pre ++ z :: post)
    (hpre : ∀ e ∈ pre, Live e) (hz : tag z = 0) :
    num_used_entries dir = pre.length ∧ first_free_entry dir = some pre.length ∧
    (qsort StartingBlockCmp (dir.Entries.take pre.length) ++
      dir.Entries.drop pre.length).take pre.length = qsort StartingBlockCmp pre := by
  have hc := countLoop_used pre z post 0 hpre hz
  rw [← hsplit] at hc
  simp only [Nat.zero_add] at hc
  obtain ⟨rest, hE⟩ : ∃ rest, dir.Entries = pre ++ z :: rest :=
    ⟨post ++ dir.Entries.drop 64, by
      rw [← List.cons_append, ← List.append_assoc, ← hsplit]
      exact (List.take_append_drop 64 dir.Entries).symm⟩
  refine ⟨by unfold num_used_entries; rw [hc], by unfold first_free_entry; rw [hc], ?_⟩
  have htake : dir.Entries.take pre.length = pre := by rw [hE]; simp
  rw [htake]
  have hql : (qsort StartingBlockCmp pre).length = pre.length := qsort_length _ _
  rw [List.take_append_of_le_length (by omega), ← hql, List.take_length]

/-! ## Running out of space and out of directory slots -/

/-- Claim C16: on a disk of `disksize` MiB with `N = disksize / 2 ≥ 3` blocks, starting from
the freshly formatted directory, for block counts with `k1 ≤ N - 2`, `k2 ≥ 1` and
`k1 + k2 > N - 2`: the first `bmfs_create` (valid name `n1`, `k1` blocks, `maxsize = 2 * k1`)
returns 0, and the second `bmfs_create` (a name `n2` that differs from `n1`, `k2` blocks)
returns `-ENOSPC` and leaves the directory as the first create saved it. -/
theorem second_create_out_of_space (disksize : Nat) (n1 n2 : List Nat) (k1 k2 : Nat)
    (hds : disksize < 2 ^ 32) (hN : 3 ≤ disksize / 2)
    (hn1 : ValidName n1) (hne : strcmp n1 n2 ≠ 0)
    (hk2 : 1 ≤ k2) (hfit : k1 ≤ disksize / 2 - 2)
    (hexc : k1 + k2 > disksize / 2 - 2) :
    (bmfs_create disksize bmfs_dir_zero n1 (2 * k1)).1 = 0 ∧
    bmfs_create disksize (bmfs_create disksize bmfs_dir_zero n1 (2 * k1)).2 n2 (2 * k2) =
      (-ENOSPC, (bmfs_create disksize bmfs_dir_zero n1 (2 * k1)).2) := by
  have hnb : disksize / 2 < 2 ^ 64 := by omega
  have e1 : (if (2 * k1) % 2 ≠ 0 then add64 (2 * k1) 1 else 2 * k1) / 2 = k1 := by
    rw [if_neg (by omega)]; omega
  have e2 : (if (2 * k2) % 2 ≠ 0 then add64 (2 * k2) 1 else 2 * k2) / 2 = k2 := by
    rw [if_neg (by omega)]; omega
  have hc1 : bmfs_create disksize bmfs_dir_zero n1 (2 * k1) = (0, firstDir n1 k1) := by
    rw [bmfs_create_of_find_none _ _ _ _ (bmfs_find_fresh n1), e1]
    exact allocate_fresh _ _ _ hnb hN hfit
  rw [hc1]
  refine ⟨rfl, ?_⟩
  simp only
  rw [bmfs_create_of_find_none _ _ _ _ (bmfs_find_firstDir n1 n2 k1 hn1.2.2.1 hne), e2]
  exact allocate_firstDir_full _ _ _ _ _ hnb hN hn1.2.2.1 hn1.2.2.2 hfit hk2 hexc

/-- Witness of C16: on a 24 MiB disk (10 allocatable blocks) "a" takes 6 blocks and "b"
with 5 blocks is refused. -/
theorem second_create_out_of_space_witness :
    strcmp nameA nameB ≠ 0 ∧ 6 ≤ 24 / 2 - 2 ∧ 6 + 5 > 24 / 2 - 2 ∧
    (bmfs_create 24 bmfs_dir_zero nameA (2 * 6)).1 = 0 ∧
    bmfs_create 24 (bmfs_create 24 bmfs_dir_zero nameA (2 * 6)).2 nameB (2 * 5) =
      (-ENOSPC, (bmfs_create 24 bmfs_dir_zero nameA (2 * 6)).2) :=
  ⟨by decide, by decide, by decide,
    second_create_out_of_space 24 nameA nameB 6 5 (by decide) (by decide) (by decide) (by decide) (by decide)
      (by decide) (by decide)⟩

/-- Claim C17: the first loop of `bmfs_create` ends with `first_free_entry = -1` (`none`)
exactly when every one of the 64 slots is live (no tag 0x00 or 0x01).  In that case
`bmfs_create` of a name that is not found returns `-ENOSPC` and leaves the directory
unchanged.  When `first_free_entry` is a slot, a failing `bmfs_create` of such a name
leaves the directory unchanged as well, and it is the gap scan that found nothing
(`new_file_start = 0`). -/
theorem bmfs_create_no_free_directory_entry (disksize : Nat) (dir : BMFSDir)
    (filename : List Nat) (maxsize : Nat) :
    (first_free_entry dir = none ↔ ∀ e ∈ dir.Entries.take 64, Live e) ∧
    (first_free_entry dir = none → bmfs_find dir filename = none →
      bmfs_create disksize dir filename maxsize = (-ENOSPC, dir)) ∧
    (∀ f, first_free_entry dir = some f → bmfs_find dir filename = none →
      (bmfs_create disksize dir filename maxsize).1 ≠ 0 →
      bmfs_create disksize dir filename maxsize = (-ENOSPC, dir) ∧
      gapScan (disksize / 2) ((if maxsize % 2 ≠ 0 then add64 maxsize 1 else maxsize) / 2)
        ((qsort StartingBlockCmp (dir.Entries.take (num_used_entries dir)) ++
          dir.Entries.drop (num_used_entries dir)).take (num_used_entries dir)) 1 = 0) := by
  refine ⟨?_, ?_, ?_⟩
  · unfold first_free_entry
    rw [countLoop_snd_none]
    simp
  · intro hff hfind
    rw [bmfs_create_of_find_none _ _ _ _ hfind]
    exact allocate_no_free_entry _ _ _ _ hff
  · intro f hff hfind hfail
    rw [bmfs_create_of_find_none _ _ _ _ hfind] at hfail ⊢
    exact allocate_fail_gap _ _ _ _ f hff hfail

/-- Witness of C17: `fullDir` has 64 live slots, `first_free_entry` is -1, and creating "z"
on a 200 MiB disk (with free blocks behind the files) returns `-ENOSPC` with the directory
unchanged. -/
theorem bmfs_create_no_free_directory_entry_witness :
    bmfs_find fullDir nameZ = none ∧ first_free_entry fullDir = none ∧
    bmfs_create 200 fullDir nameZ 2 = (-ENOSPC, fullDir) :=
  ⟨by decide, by decide,
    (bmfs_create_no_free_directory_entry 200 fullDir nameZ 2).2.1 (by decide) (by decide)⟩

/-! ## First fit -/

/-- Counterexample to C19 as stated.  First, `fullDir` on a 200 MiB disk (`N = 100`): all
64 slots are live (there is no 0x00 slot), their ranges are pairwise disjoint, of one
block each and inside `[1, 99)`; block 65 is free for a request of one block, "z" is a
valid name that is not found, and yet `bmfs_create` returns `-ENOSPC` ("No free directory
entries").  Second, on a 2 MiB disk (`N = 1`) the freshly formatted directory has no live
entry and no block range lies inside `[1, 0)`, and yet `bmfs_create` of one block
succeeds. -/
theorem first_fit_needs_free_slot :
    (∀ e ∈ fullDir.Entries.take 64, Live e ∧ 1 ≤ e.ReservedBlocks ∧ 1 ≤ e.StartingBlock ∧
      e.StartingBlock + e.ReservedBlocks ≤ 200 / 2 - 1) ∧
    fullDir.Entries.Pairwise (fun a b => ∀ blk, ¬ (InRange a blk ∧ InRange b blk)) ∧
    200 / 2 < 2 ^ 31 ∧ ValidName nameZ ∧ bmfs_find fullDir nameZ = none ∧
    FreeAt (200 / 2) fullDir.Entries 1 65 ∧
    bmfs_create 200 fullDir nameZ (2 * 1) = (-ENOSPC, fullDir) ∧
    2 / 2 < 2 ^ 31 ∧ bmfs_dir_zero.Entries.take 64 = [] ++ zeroEntry :: List.replicate 63 zeroEntry ∧
    (bmfs_create 2 bmfs_dir_zero nameA (2 * 1)).1 = 0 ∧
    ¬ ∃ p, FreeAt (2 / 2) [] 1 p := by
  refine ⟨by decide, ?_, by decide, by decide, by decide, ?_, by decide, by decide, by decide,
    by decide, ?_⟩
  · have h : fullDir.Entries.Pairwise (fun a b =>
        a.StartingBlock + a.ReservedBlocks ≤ b.StartingBlock ∨
        b.StartingBlock + b.ReservedBlocks ≤ a.StartingBlock) := by decide
    refine h.imp ?_
    intro a b hab blk hb
    unfold InRange at hb
    omega
  · rw [fitsAt_iff_freeAt _ _ _ _ (le_refl _) (by decide)]
    decide
  · rintro ⟨p, _, hp, _⟩
    omega

/-- Claim C19, amended: let the first 64 slots of the directory be `pre ++ z :: post` with
`z` a 0x00 slot and every entry of `pre` live, with at least one reserved block, inside
`[1, N - 1)` and with pairwise disjoint ranges, where `2 ≤ N = disksize / 2 < 2 ^ 31`.
For a request of `k ≥ 1` blocks under a valid name that is not found, `bmfs_create`
returns 0 exactly when some `p` has `[p, p + k)` inside `[1, N - 1)` and disjoint from
every range of `pre`; on success the name is found, its entry has `k` reserved blocks and
its `StartingBlock` is the least such `p`; when there is no such `p` the call returns
`-ENOSPC` and leaves the directory unchanged. -/
theorem bmfs_create_first_fit (disksize : Nat) (dir : BMFSDir) (pre post : List BMFSEntry)
    (z : BMFSEntry)
    (filename : List Nat) (k : Nat)
    (hsplit : dir.Entries.take 64 = pre ++ z :: post) (hz : tag z = 0)
    (hlive : ∀ e ∈ pre, Live e)
    (hrange : ∀ e ∈ pre, 1 ≤ e.ReservedBlocks ∧ 1 ≤ e.StartingBlock ∧
      e.StartingBlock + e.ReservedBlocks ≤ disksize / 2 - 1)
    (hdisj : pre.Pairwise (fun a b => ∀ blk, ¬ (InRange a blk ∧ InRange b blk)))
    (hN : disksize / 2 < 2 ^ 31) (hN2 : 2 ≤ disksize / 2) (hk : 1 ≤ k)
    (hname : ValidName filename) (hnew : bmfs_find dir filename = none) :
    ((bmfs_create disksize dir filename (2 * k)).1 = 0 ↔
      ∃ p, FreeAt (disksize / 2) pre k p) ∧
    ((bmfs_create disksize dir filename (2 * k)).1 = 0 →
      ∃ i e, bmfs_find (bmfs_create disksize dir filename (2 * k)).2 filename = some i ∧
        (bmfs_create disksize dir filename (2 * k)).2.Entries[i]? = some e ∧
        e.ReservedBlocks = k ∧
        FreeAt (disksize / 2) pre k e.StartingBlock ∧
        ∀ p, FreeAt (disksize / 2) pre k p → e.StartingBlock ≤ p) ∧
    ((¬ ∃ p, FreeAt (disksize / 2) pre k p) →
      bmfs_create disksize dir filename (2 * k) = (-ENOSPC, dir)) := by
  obtain ⟨hn, hff, htk⟩ := used_split dir pre post z hsplit hlive hz
  have e2 : (if (2 * k) % 2 ≠ 0 then add64 (2 * k) 1 else 2 * k) / 2 = k := by
    rw [if_neg (by omega)]; omega
  rw [bmfs_create_of_find_none _ _ _ _ hnew, e2]
  generalize hNdef : disksize / 2 = N at *
  have hQmem : ∀ e, e ∈ qsort StartingBlockCmp pre ↔ e ∈ pre := fun e => mem_qsort _ _ e
  have hsorted := qsort_sorted pre (fun e he => ⟨(hlive e he).2, by
    have := hrange e he; omega⟩)
  have hQdisj : (qsort StartingBlockCmp pre).Pairwise
      (fun a b => ∀ blk, ¬ (InRange a blk ∧ InRange b blk)) :=
    (List.Perm.pairwise_iff (fun {x y} hxy blk hb => hxy blk ⟨hb.2, hb.1⟩)
      (qsort_perm StartingBlockCmp pre)).2 hdisj
  have hchain : (qsort StartingBlockCmp pre).Pairwise
      (fun a b => a.StartingBlock + a.ReservedBlocks ≤ b.StartingBlock) := by
    refine List.Pairwise.imp_of_mem ?_ (hsorted.and hQdisj)
    intro a b ha hb hab
    obtain ⟨hle, hd⟩ := hab
    have hRa := hrange a ((hQmem a).1 ha)
    have hRb := hrange b ((hQmem b).1 hb)
    by_contra hcon
    apply hd b.StartingBlock
    unfold InRange
    omega
  have gs := gapScan_first_fit N k hN hk (qsort StartingBlockCmp pre) 1 (le_refl _) (by omega)
    (fun e he => by
      have h1 := hlive e ((hQmem e).1 he)
      have h2 := hrange e ((hQmem e).1 he)
      exact ⟨h1.2, h2.2.1, h2.1, h2.2.2⟩) hchain
  have hfree : ∀ p, FreeAt N pre k p ↔
      1 ≤ p ∧ FitsAt N (qsort StartingBlockCmp pre) k p := by
    intro p
    rw [fitsAt_iff_freeAt N k p pre hk (fun e he => (hrange e he).1),
      fitsAt_perm N k p _ _ hQmem]
  have hgap := allocate_by_gap N k dir filename pre.length hff
  rw [hn, htk] at hgap
  have hzero : gapScan N k (qsort StartingBlockCmp pre) 1 = 0 → ¬ ∃ p, FreeAt N pre k p := by
    rintro h0 ⟨p, hp⟩
    rw [hfree] at hp
    exact gs.2 h0 p hp.1 hp.2
  have hnz : gapScan N k (qsort StartingBlockCmp pre) 1 ≠ 0 →
      FreeAt N pre k (gapScan N k (qsort StartingBlockCmp pre) 1) ∧
      ∀ p, FreeAt N pre k p → gapScan N k (qsort StartingBlockCmp pre) 1 ≤ p := by
    intro hne
    obtain ⟨h1, h2, h3⟩ := gs.1 hne
    refine ⟨(hfree _).2 ⟨h1, h2⟩, ?_⟩
    intro p hp
    rw [hfree] at hp
    exact h3 p hp.1 hp.2
  have hENOSPC : (-ENOSPC : Int) ≠ 0 := by decide
  refine ⟨⟨?_, ?_⟩, ?_, ?_⟩
  · intro hok
    by_cases h0 : gapScan N k (qsort StartingBlockCmp pre) 1 = 0
    · rw [hgap.1 h0] at hok
      exact absurd hok hENOSPC
    · exact ⟨_, (hnz h0).1⟩
  · intro hex
    by_cases h0 : gapScan N k (qsort StartingBlockCmp pre) 1 = 0
    · exact absurd hex (hzero h0)
    · exact hgap.2 h0
  · intro hok
    have h0 : gapScan N k (qsort StartingBlockCmp pre) 1 ≠ 0 := by
      intro h0
      rw [hgap.1 h0] at hok
      exact absurd hok hENOSPC
    obtain ⟨i, e, h1, h2, h3, h4, _⟩ :=
      allocate_ok_find N k dir filename hname.2.2.1 hname.2.2.2 hnew hok
    obtain ⟨i', e', h1', h2', h3'⟩ :=
      allocate_ok_start N k dir filename hname.2.2.1 hname.2.2.2 hnew hok
    rw [h1] at h1'
    cases h1'
    rw [h2] at h2'
    cases h2'
    rw [hn, htk] at h3'
    refine ⟨i, e, h1, h2, h4, ?_, ?_⟩
    · rw [h3']; exact (hnz h0).1
    · rw [h3']; exact (hnz h0).2
  · intro hno
    by_cases h0 : gapScan N k (qsort StartingBlockCmp pre) 1 = 0
    · exact hgap.1 h0
    · exact absurd ⟨_, (hnz h0).1⟩ hno

/-- Witness of the amended C19: in `dirAB` ("a" in [1,3), "b" in [3,5)) on a 24 MiB disk a
request of 2 blocks for "c" succeeds and gets the least free position. -/
theorem bmfs_create_first_fit_witness :
    (bmfs_create 24 dirAB nameC (2 * 2)).1 = 0 ∧
    ∃ i e, bmfs_find (bmfs_create 24 dirAB nameC (2 * 2)).2 nameC = some i ∧
      (bmfs_create 24 dirAB nameC (2 * 2)).2.Entries[i]? = some e ∧
      e.ReservedBlocks = 2 ∧
      FreeAt (24 / 2) [record 97 1 2 0, record 98 3 2 0] 2 e.StartingBlock ∧
      ∀ p, FreeAt (24 / 2) [record 97 1 2 0, record 98 3 2 0] 2 p → e.StartingBlock ≤ p :=
  have hd : [record 97 1 2 0, record 98 3 2 0].Pairwise
      (fun a b => ∀ blk, ¬ (InRange a blk ∧ InRange b blk)) := by
    have h : [record 97 1 2 0, record 98 3 2 0].Pairwise (fun a b =>
        a.StartingBlock + a.ReservedBlocks ≤ b.StartingBlock ∨
        b.StartingBlock + b.ReservedBlocks ≤ a.StartingBlock) := by decide
    refine h.imp ?_
    intro a b hab blk hb
    unfold InRange at hb
    omega
  ⟨by decide, (bmfs_create_first_fit 24 dirAB [record 97 1 2 0, record 98 3 2 0]
    (List.replicate 61 zeroEntry) zeroEntry nameC 2 (by decide) (by decide) (by decide)
    (by decide) hd (by decide) (by decide) (by decide) (by decide) (by decide)).2.1 (by decide)⟩

/-! ## The clamps of the data transfer engine below `2 ^ 63` -/

theorem mul64_le (a b : Nat) : mul64 a b ≤ a * b := Nat.mod_le _ _

theorem writeOffset_bounds (entry : BMFSEntry) (off : Int) (hoff : off < 2 ^ 63) :
    writeOffset entry off ≤ mul64 entry.ReservedBlocks blockSize ∧
    writeOffset entry off < 2 ^ 63 := by
  unfold writeOffset
  generalize mul64 entry.ReservedBlocks blockSize = cap
  by_cases h0 : off < 0
  · simp only [if_pos h0]
    by_cases h1 : 0 > cap
    · omega
    · rw [if_neg h1]; omega
  · simp only [if_neg h0]
    by_cases h1 : off.toNat > cap
    · rw [if_pos h1]; omega
    · rw [if_neg h1]; omega

theorem write_within_reservation (entry : BMFSEntry) (off : Int) (len : Nat)
    (hoff : off < 2 ^ 63) (hlen : len < 2 ^ 63) :
    writeOffset entry off + writeLength entry off len ≤ entry.ReservedBlocks * blockSize := by
  have hcap := mul64_le entry.ReservedBlocks blockSize
  obtain ⟨hle, ho63⟩ := writeOffset_bounds entry off hoff
  have hcap64 : mul64 entry.ReservedBlocks blockSize < 2 ^ 64 := Nat.mod_lt _ (by decide)
  have hadd : add64 (writeOffset entry off) len = writeOffset entry off + len := by
    unfold add64; exact Nat.mod_eq_of_lt (by omega)
  have hsub : sub64 (mul64 entry.ReservedBlocks blockSize) (writeOffset entry off) =
      mul64 entry.ReservedBlocks blockSize - writeOffset entry off :=
    sub64_of_le _ _ hle hcap64
  unfold writeLength
  simp only [hadd, hsub]
  generalize writeOffset entry off = o at *
  generalize mul64 entry.ReservedBlocks blockSize = cap at *
  by_cases h1 : o + len > cap
  · rw [if_pos h1]
    by_cases h2 : cap - o > INT_MAX
    · rw [if_pos h2]; unfold INT_MAX at *; omega
    · rw [if_neg h2]; omega
  · rw [if_neg h1]
    by_cases h2 : len > INT_MAX
    · rw [if_pos h2]; unfold INT_MAX at *; omega
    · rw [if_neg h2]; omega

theorem read_within_size (e : BMFSEntry) (off len : Nat)
    (hsize : e.FileSize < 2 ^ 63) (hlen : len < 2 ^ 63) :
    readOffset e off ≤ e.FileSize ∧ readOffset e off + readLength e off len ≤ e.FileSize := by
  have ho : readOffset e off ≤ e.FileSize := by
    unfold readOffset
    by_cases h1 : off > e.FileSize
    · rw [if_pos h1]
    · rw [if_neg h1]; omega
  have hadd : add64 (readOffset e off) len = readOffset e off + len := by
    unfold add64; exact Nat.mod_eq_of_lt (by omega)
  have hsub : sub64 e.FileSize (readOffset e off) = e.FileSize - readOffset e off :=
    sub64_of_le _ _ ho (by omega)
  refine ⟨ho, ?_⟩
  unfold readLength
  simp only [hadd, hsub]
  by_cases h1 : readOffset e off + len > e.FileSize
  · rw [if_pos h1]; omega
  · rw [if_neg h1]; omega

/-! ## Lemmas on `bmfs_write`, `bmfs_findfile` and the size string -/

theorem bmfs_findfile_of_find (dir : BMFSDir) (fn : List Nat) (i : Nat)
    (h : bmfs_find dir fn = some i) :
    bmfs_findfile dir fn = some (dir.Entries.getD i zeroEntry, 0) := by
  have hi : i < 64 := (bmfs_find_some dir fn i h).1.1
  unfold bmfs_findfile
  rw [h]
  simp only
  rw [Nat.div_eq_of_lt hi]

theorem bmfs_write_not_found (disk : Disk) (fn buf : List Nat) (len : Nat) (off : Int)
    (h : bmfs_find disk.dir fn = none) : bmfs_write disk fn buf len off = (-ENOENT, disk) := by
  unfold bmfs_write
  rw [h]

theorem bmfs_write_dir (disk : Disk) (fn buf : List Nat) (len : Nat) (off : Int) (i : Nat)
    (h : bmfs_find disk.dir fn = some i) :
    (bmfs_write disk fn buf len off).2.dir.Entries =
      disk.dir.Entries.modify
        (grow (writeLength (disk.dir.Entries.getD i zeroEntry) off len)) i := by
  rw [bmfs_write_found disk fn buf len off i h]

theorem bmfs_write_frame (disk : Disk) (fn buf : List Nat) (len : Nat) (off : Int) (i : Nat)
    (h : bmfs_find disk.dir fn = some i) :
    (bmfs_write disk fn buf len off).2.dir.Entries.length = disk.dir.Entries.length ∧
    (∀ j, j ≠ i →
      (bmfs_write disk fn buf len off).2.dir.Entries[j]? = disk.dir.Entries[j]?) ∧
    ∃ e e', disk.dir.Entries[i]? = some e ∧
      (bmfs_write disk fn buf len off).2.dir.Entries[i]? = some e' ∧
      e'.FileName = e.FileName ∧ e'.StartingBlock = e.StartingBlock ∧
      e'.ReservedBlocks = e.ReservedBlocks ∧ e'.Unused = e.Unused ∧
      e'.FileSize = add64 e.FileSize (writeLength e off len) := by
  obtain ⟨⟨_, e, he, _⟩, _⟩ := bmfs_find_some disk.dir fn i h
  have hget : disk.dir.Entries.getD i zeroEntry = e := by
    rw [List.getD_eq_getElem?_getD, he]; rfl
  rw [bmfs_write_dir disk fn buf len off i h, hget]
  refine ⟨by simp, fun j hj => List.getElem?_modify_ne _ _ (Ne.symm hj), e,
    grow (writeLength e off len) e, he, ?_, rfl, rfl, rfl, rfl, rfl⟩
  rw [List.getElem?_modify_eq, he]; rfl

theorem bmfs_initialize_size_min (size : List Nat) (h : (bmfs_initialize_size size).1 = 0) :
    minimumDiskSize ≤ (bmfs_initialize_size size).2 := by
  unfold bmfs_initialize_size at h ⊢
  simp only at h ⊢
  generalize (if (sizeLoop size 0 ⟨0, 0, 0⟩).ret = 0 ∧ (sizeLoop size 0 ⟨0, 0, 0⟩).diskSize > 0 ∧
      (sizeLoop size 0 ⟨0, 0, 0⟩).diskSizeFactor > 0 then
      unitLoop (sizeLoop size 0 ⟨0, 0, 0⟩).diskSizeFactor (sizeLoop size 0 ⟨0, 0, 0⟩)
    else sizeLoop size 0 ⟨0, 0, 0⟩) = st at h ⊢
  by_cases h0 : st.ret = 0
  · rw [if_pos h0] at h
    by_cases h1 : st.diskSize < minimumDiskSize
    · rw [if_pos h1] at h
      exact absurd h (by decide)
    · omega
  · rw [if_neg h0] at h
    exact absurd h h0

/-! ## The frame of `bmfs_write` -/

/-- Claim C21 (fails on the code): "a" is live in slot 0 of `diskMax` with
`FileSize = 2 ^ 64 - 1`.  A write of one byte at offset 0 is found, transfers one byte
and changes only `FileSize` of slot 0, but `FileSize += write_count` wraps around: the
saved `FileSize` is 0, less than before. -/
theorem bmfs_write_wraps_file_size :
    bmfs_find diskMax.dir nameA = some 0 ∧
    diskMax.dir.Entries[0]? = some (record 97 1 2 (2 ^ 64 - 1)) ∧
    (bmfs_write diskMax nameA [7] 1 0).1 = 1 ∧
    (bmfs_write diskMax nameA [7] 1 0).2.dir.Entries[0]? = some (record 97 1 2 0) ∧
    (record 97 1 2 0).FileSize < (record 97 1 2 (2 ^ 64 - 1)).FileSize := by
  decide

/-! ## Disk bounds -/

/-- Claim C22 (fails on the code): on an 18 MiB disk (9 blocks, last block index 8) the
calls of `overlapOps` lead to the live entries "d" in [3,6) and "c" in [5,7).  In the next
`bmfs_create`, of "e" with 200 MiB (100 blocks), the gap scan reaches "c" with
`prev_file_end = 6` and `this_file_start = 5`; the unsigned difference wraps around to
`2 ^ 64 - 1`, the request "fits", and the call succeeds: slot 2, in front of the
sentinel, holds the live "e" with `StartingBlock = 6` and `ReservedBlocks = 100`, which
ends at block 106, far behind the last block. -/
theorem disk_bounds_broken_by_wrapped_gap :
    3 ≤ 18 / 2 ∧ (∀ op ∈ boundsOps, op.Valid) ∧
    (run 18 (freshDisk 18) overlapOps).dir.Entries.take 3 =
      [record 100 3 3 0, record 99 5 2 0, markDeleted (record 97 1 2 0)] ∧
    sub64 (record 99 5 2 0).StartingBlock
      (add64 (record 100 3 3 0).StartingBlock (record 100 3 3 0).ReservedBlocks) = 2 ^ 64 - 1 ∧
    (bmfs_create 18 (run 18 (freshDisk 18) overlapOps).dir nameE 200).1 = 0 ∧
    sentinelIndex ((run 18 (freshDisk 18) boundsOps).dir.Entries.take 64)
      = 3 ∧
    (run 18 (freshDisk 18) boundsOps).dir.Entries[2]? =
      some (record 101 6 100 0) ∧
    ¬ DiskBounds 18 (run 18 (freshDisk 18) boundsOps).dir := by
  refine ⟨by decide, by decide, by decide, by decide, by decide, by decide, by decide, ?_⟩
  intro h
  exact absurd (h 2 (record 101 6 100 0) (by decide) (by decide) (by decide)).2 (by decide)

/-! ## The slot number of `bmfs_findfile` -/

/-- Claim C23 (fails on the code): `bmfs_find` locates "b" in slot 1 of `dirAB`;
`bmfs_findfile` returns 1 and copies that entry, but stores 0, not 1, in `*entrynumber`:
the pointer difference, already a number of entries, is divided by the entry size 64. -/
theorem bmfs_findfile_reports_slot_zero :
    bmfs_find dirAB nameB = some 1 ∧ dirAB.Entries[1]? = some (record 98 3 2 0) ∧
    bmfs_findfile dirAB nameB = some (record 98 3 2 0, 0) := by
  decide

/-! ## The size string -/

/-- Claim C24 (fails on the code): the string "30000000000000000000" consists of decimal
digits; its value `3 * 10 ^ 19` does not fit in 64 bits, and yet the validation accepts
it (`ret = 0`) with `diskSize = 11553255926290448384`, the value modulo `2 ^ 64`.  In the
same way "24576P" (24576 times `1024 ^ 5`, which is `3 * 2 ^ 63`) is accepted with
`diskSize = 2 ^ 63`.  The tests `diskSize * 10 > diskSize` and
`diskSize * 1024 > diskSize` do not detect a product that wraps to a larger value. -/
theorem bmfs_initialize_accepts_wrapped_size :
    decimalValue sizeThreeE19 = 30000000000000000000 ∧
    ¬ (decimalValue sizeThreeE19 * 1024 ^ 0 < 2 ^ 64) ∧
    bmfs_initialize_size sizeThreeE19 = (0, 11553255926290448384) ∧
    decimalValue [50, 52, 53, 55, 54] = 24576 ∧
    ¬ (decimalValue [50, 52, 53, 55, 54] * 1024 ^ 5 < 2 ^ 64) ∧
    bmfs_initialize_size size24576P = (0, 9223372036854775808) := by
  decide

end BMFS
